import Mathlib

/-!
# A shallow embedding of `feupy.cache` (caching and bulk-fetch subsystem)

This file embeds the cache module of the `feupy` repository
(`src/feupy/cache.py`, helpers from `src/feupy/_internal_utils.py`) as
executable Lean definitions, and proves/refutes the frozen claims about it.

Modelling conventions:
* Time is modelled by `ℚ` (the code uses float seconds-since-epoch); a whole
  operation is considered to run at one instant `Env.now`, matching the
  spec's idealisation of the validity check as a pure function of expiry
  versus current time.
* External collaborators (the HTTP library, `bs4`/`lxml` parsing, the dbm
  backing file, `datetime.timestamp`, the PRNG) are oracles packed into an
  `Env` record.  The module's own code — treatments, classification,
  `get_html`, `remove_invalid_entries`, `get_html_async`, `load_cache` — is
  translated statement by statement.
* Python's `random.expovariate(lambd)` returns `E / lambd` where `E` is a
  unit-exponential sample; the sample stream is the oracle `Env.draws`.
  The real-valued jitter formula itself is modelled separately over `ℝ`.
* Exceptions are modelled by `Except`: each stateful operation returns its
  result together with the module state as mutated up to the raise, which is
  exactly what Python's module-global `cache` keeps when an exception
  propagates.
* `Env.trace` instrumentation: `CState.trace` records every url for which a
  network GET was issued (`requests.get` in `get_html`, `session.get` in
  `get_html_async`), so "no origin call" claims are statable.
-/

namespace Feupy

/-- Python exceptions that the modelled code can raise:
`httpError s` is `requests.HTTPError` from `raise_for_status` (status `s`),
`attributeError` is `AttributeError` (e.g. `None.find(...)`/`None.decompose()`
inside `_trim_curricular_unit`). -/
inductive PyErr where
  | httpError (status : ℕ)
  | attributeError
deriving Repr, DecidableEq

/-- A minimal DOM tree: what `bs4.BeautifulSoup` hands back to the trimming
functions.  Only tag name, `id` attribute and children matter to the code. -/
inductive Dom where
  | text (s : String) : Dom
  | elem (tag : String) (idAttr : String) (children : List Dom) : Dom

/-- `soup.find("div", {"id" : i})`: depth-first preorder search for the first
`div` with the given id.  Returns the children of the found div (the found
tag is then `Dom.elem "div" i cs`); `none` models bs4 returning `None`. -/
def findDivList (i : String) : List Dom → Option (List Dom)
  | [] => none
  | Dom.text _ :: ds => findDivList i ds
  | Dom.elem t a cs :: ds =>
    if t = "div" ∧ a = i then some cs
    else
      match findDivList i cs with
      | some r => some r
      | none => findDivList i ds

/-- `tag.decompose()` applied to the first `div` with id `i` found by a
depth-first preorder search: the tree with that subtree removed. -/
def removeDivList (i : String) : List Dom → List Dom
  | [] => []
  | Dom.text s :: ds => Dom.text s :: removeDivList i ds
  | Dom.elem t a cs :: ds =>
    if t = "div" ∧ a = i then ds
    else if (findDivList i cs).isSome then Dom.elem t a (removeDivList i cs) :: ds
    else Dom.elem t a cs :: removeDivList i ds

/-- `str(tag)` serialisation of a list of DOM nodes. -/
def renderList : List Dom → String
  | [] => ""
  | Dom.text s :: ds => s ++ renderList ds
  | Dom.elem t a cs :: ds =>
    "<" ++ t ++ (if a = "" then "" else " id=\x22" ++ a ++ "\x22") ++ ">"
      ++ renderList cs ++ "</" ++ t ++ ">" ++ renderList ds

/-- `str(soup.find("div", {"id" : i}))`: Python's `str(None)` is the string
`"None"` when the search failed, otherwise the serialised tag. -/
def renderFound (i : String) : Option (List Dom) → String
  | none => "None"
  | some cs => renderList [Dom.elem "div" i cs]

/-- The scan behind `_internal_utils.parse_academic_year`:
`re.findall(r"(\d\d\d\d)/\d\d\d\d", html)[0]` — the first (leftmost)
occurrence of four digits, a slash and four digits; `none` models the
`IndexError` on `[0]` when there is no match. -/
def academicYearScan : List Char → Option ℕ
  | a :: b :: c :: d :: s :: e1 :: e2 :: e3 :: e4 :: rest =>
    if a.isDigit ∧ b.isDigit ∧ c.isDigit ∧ d.isDigit ∧ s = '/'
        ∧ e1.isDigit ∧ e2.isDigit ∧ e3.isDigit ∧ e4.isDigit then
      some ((a.toNat - 48) * 1000 + (b.toNat - 48) * 100
        + (c.toNat - 48) * 10 + (d.toNat - 48))
    else
      academicYearScan (b :: c :: d :: s :: e1 :: e2 :: e3 :: e4 :: rest)
  | _ => none

/-- `_internal_utils.parse_academic_year`, with `none` for the `IndexError`
that `_curricular_unit_treatment` catches. -/
def parse_academic_year (html : String) : Option ℕ :=
  academicYearScan html.toList

/-- Python's `pat in s` substring test on strings. -/
def strContains (s pat : String) : Bool :=
  containsAux pat.toList s.toList
where
  containsAux (pat : List Char) : List Char → Bool
    | [] => pat.isEmpty
    | c :: cs => pat.isPrefixOf (c :: cs) || containsAux pat cs

/-- A cache entry `(timeout, html)`: "due by date" in seconds since epoch,
and the (treated) html string. -/
abbrev Entry := ℚ × String

/-- The persistent dictionary (`shelve` shelf) as an association list; the
states reachable from Python dicts have pairwise-distinct keys, and every
operation below reads/writes it through the functional dict semantics. -/
abbrev Store := List (String × Entry)

/-- `store[k]` lookup (first binding wins, as for a dict). -/
def dictGet? : Store → String → Option Entry
  | [], _ => none
  | (k, v) :: s, key => if k = key then some v else dictGet? s key

/-- `k in store` membership. -/
def dictMem (s : Store) (key : String) : Bool :=
  (dictGet? s key).isSome

/-- `store[k] = v`: replace the binding in place if present, else append —
Python dict update order semantics. -/
def dictSet : Store → String → Entry → Store
  | [], key, v => [(key, v)]
  | (k, w) :: s, key, v =>
    if k = key then (k, v) :: s else (k, w) :: dictSet s key v

/-- `store.pop(k)`: remove the binding of `k`.  (On duplicate-free stores —
the only states a Python dict produces — this is exactly `dict.pop`.) -/
def dictPop : Store → String → Store
  | [], _ => []
  | (k, w) :: s, key => if k = key then dictPop s key else (k, w) :: dictPop s key

/-- The external world of one run: the oracles behind the module's imports.
`origin u` is the final HTTP response `(status_code, text)` for a GET of `u`;
`finalUrl u` is `request.url` after redirect following; `draws i` is the i-th
unit-exponential sample of the PRNG (so `random.expovariate lambd` returns
`draws i / lambd`); `trimHtml` is `_internal_utils.trim_html` (the lxml
`Cleaner`); `parseHtml` is `BeautifulSoup(·, "lxml")`; `disk p` is the shelf
contents that `shelve.open p` yields; `dateTimestamp y m d` is
`datetime.datetime(y, m, d).timestamp()`. -/
structure Env where
  now : ℚ
  todayYear : ℤ
  todayMonth : ℕ
  origin : String → ℕ × String
  finalUrl : String → String
  draws : ℕ → ℚ
  trimHtml : String → String
  parseHtml : String → List Dom
  disk : String → Store
  dateTimestamp : ℤ → ℕ → ℕ → ℚ

/-- The module state: `cache` is the global (still `None` before
`load_cache`), `rng` the index of the next PRNG draw, `atexitCloses` how many
`atexit.register(cache.close)` registrations happened, and `trace` the urls
fetched from the origin so far (instrumentation; oldest first). -/
structure CState where
  cache : Option Store
  rng : ℕ
  atexitCloses : ℕ
  trace : List String
deriving Repr, DecidableEq

/-- `_internal_utils.get_current_academic_year`. -/
def get_current_academic_year (e : Env) : ℤ :=
  if 9 ≤ e.todayMonth then e.todayYear else e.todayYear - 1

/-! ## Custom treatments (`cache.py` lines 51–123) -/

/-- `_is_curricular_unit`: `"ucurr_geral.ficha_uc_view" in url`. -/
def is_curricular_unit (url : String) : Bool :=
  strContains url "ucurr_geral.ficha_uc_view"

/-- `_is_teacher`: `"func_geral.formview" in url`. -/
def is_teacher (url : String) : Bool :=
  strContains url "func_geral.formview"

/-- `_is_student`: `"fest_geral.cursos_list" in url`. -/
def is_student (url : String) : Bool :=
  strContains url "fest_geral.cursos_list"

/-- `_trim_curricular_unit`: trim, parse, `find("div", {"id":"envolvente"})`,
then `.find("div", {"id":"colunaprincipal"}).decompose()` on it and
serialise.  A failed outer find makes `None.find(...)` raise
`AttributeError`; a failed inner find makes `None.decompose()` raise it. -/
def trim_curricular_unit (e : Env) (html : String) : Except PyErr String :=
  let doc := e.parseHtml (e.trimHtml html)
  match findDivList "envolvente" doc with
  | none => Except.error PyErr.attributeError
  | some cs =>
    match findDivList "colunaprincipal" cs with
    | none => Except.error PyErr.attributeError
    | some _ =>
      Except.ok (renderList [Dom.elem "div" "envolvente" (removeDivList "colunaprincipal" cs)])

/-- `_trim_teacher`: trim, parse, `str(soup.find("div", {"id":"conteudo"}))`.
Note: when the div is absent this is `str(None) = "None"` — no exception. -/
def trim_teacher (e : Env) (html : String) : String :=
  renderFound "conteudo" (findDivList "conteudo" (e.parseHtml (e.trimHtml html)))

/-- `_trim_student`: like `_trim_teacher` with `"conteudo-extra"`. -/
def trim_student (e : Env) (html : String) : String :=
  renderFound "conteudo-extra" (findDivList "conteudo-extra" (e.parseHtml (e.trimHtml html)))

/-- The literal `0.693147` of `_random_radioactive_lifetime` (the code's
6-decimal truncation of ln 2, per its comment `# ln(2)/half-life`). -/
def ln2code : ℚ := 693147 / 1000000

/-- The rate `lambd = 0.693147 / half_life` used by the code. -/
def lambd (half_life : ℚ) : ℚ := ln2code / half_life

/-- `_random_radioactive_lifetime(half_life, cutoff)`: the sampled lifetime
`random.expovariate(lambd) = draw / lambd` (with `draw` the PRNG's
unit-exponential sample), cut off at `half_life * 4` when `cutoff`. -/
def random_radioactive_lifetime (half_life : ℚ) (draw : ℚ) (cutoff : Bool) : ℚ :=
  let lifetime := draw / lambd half_life
  if cutoff then min lifetime (half_life * 4) else lifetime

/-- `timedelta(days = 6*30).total_seconds()`. -/
def sixMonths : ℚ := 15552000
/-- `timedelta(days = 2*30).total_seconds()`. -/
def twoMonths : ℚ := 5184000
/-- `timedelta(days = 2).total_seconds()` (default half-life). -/
def twoDays : ℚ := 172800

/-- A treatment as called by the fetch paths: given the next PRNG index and
the raw html, either an entry `(timeout, payload)` plus the PRNG index after
the treatment's draws, or a raised exception. -/
abbrev Treatment := ℕ → String → Except PyErr (Entry × ℕ)

/-- `_curricular_unit_treatment` (both branches of its `if` return the same
expression, as in the source). -/
def curricular_unit_treatment (e : Env) : Treatment := fun rng html =>
  let timeout := e.now + random_radioactive_lifetime sixMonths (e.draws rng) true
  match parse_academic_year html with
  | none => Except.ok ((timeout, html), rng + 1)
  | some y =>
    if (y : ℤ) < get_current_academic_year e then
      (trim_curricular_unit e html).map (fun s => ((timeout, s), rng + 1))
    else
      (trim_curricular_unit e html).map (fun s => ((timeout, s), rng + 1))

/-- `_teacher_treatment`. -/
def teacher_treatment (e : Env) : Treatment := fun rng html =>
  Except.ok ((e.now + random_radioactive_lifetime twoMonths (e.draws rng) true,
    trim_teacher e html), rng + 1)

/-- `_student_treatment`: fixed calendar expiry
`datetime(year + 1, 9, 20).timestamp()`, no PRNG draw. -/
def student_treatment (e : Env) : Treatment := fun rng html =>
  Except.ok ((e.dateTimestamp (get_current_academic_year e + 1) 9 20,
    trim_student e html), rng)

/-- `_default_treatment`. -/
def default_treatment (e : Env) : Treatment := fun rng html =>
  Except.ok ((e.now + random_radioactive_lifetime twoDays (e.draws rng) true,
    e.trimHtml html), rng + 1)

/-- The `_custom_treatments` dict, in its insertion (= iteration) order. -/
def custom_treatments (e : Env) : List ((String → Bool) × Treatment) :=
  [(is_curricular_unit, curricular_unit_treatment e),
   (is_teacher,         teacher_treatment e),
   (is_student,         student_treatment e)]

/-- The treatment-dispatch loop shared by `get_html` and `get_html_async`:
iterate `_custom_treatments.items()`, apply the first whose match rule
accepts the url, else `_default_treatment`. -/
def classifyTreatment (e : Env) (url : String) : Treatment :=
  match (custom_treatments e).find? (fun mt => mt.1 url) with
  | some mt => mt.2
  | none => default_treatment e

/-! ## Store lifecycle (`load_cache`, lines 125–157) -/

/-- `os.path.dirname(__file__)`, the default shelf directory. -/
def defaultPath : String := "feupy"

/-- `load_cache(flag, path)`: a no-op if the global `cache` is not `None`,
otherwise open the shelf at `os.path.join(path, "cache")` and register
`cache.close` with `atexit`.  `flag` only parametrises the external dbm
open, which the `disk` oracle abstracts. -/
def load_cache (e : Env) (st : CState) (flag : String) (path : Option String) : CState :=
  if st.cache.isSome then st
  else
    let p := (match path with | none => defaultPath | some q => q)
    { st with cache := some (e.disk (p ++ "/cache")),
              atexitCloses := st.atexitCloses + 1 }

/-- The `if cache == None: load_cache()` guard at the top of every public
operation. -/
def ensureLoaded (e : Env) (st : CState) : CState :=
  if st.cache.isSome then st else load_cache e st "c" none

/-! ## Validity, single fetch path, reset, sweep (lines 159–267) -/

/-- `_cache_entry_is_valid(key)`: `cache[key][0] > time.time()`.  Both call
sites guard with `key in cache`, so the absent case is unreachable there; we
let it be `false`. -/
def cache_entry_is_valid (e : Env) (store : Store) (key : String) : Bool :=
  match dictGet? store key with
  | some en => decide (e.now < en.1)
  | none => false

/-- `urllib.parse.urlencode(params, doseq = True)` for simple string pairs
(percent-escaping abstracted away; claims never depend on it). -/
def urlencode (params : List (String × String)) : String :=
  String.intercalate "&" (params.map (fun kv => kv.1 ++ "=" ++ kv.2))

/-- `if params != {}: url = url + "?" + urlencode(params)`. -/
def withQuery (url : String) (params : List (String × String)) : String :=
  if params.isEmpty then url else url ++ "?" ++ urlencode params

/-- `get_html(url, params, use_cache)` (lines 186–233).  Returns the result
(`.ok html` or the raised exception) together with the module state as
mutated up to that point.  On a miss the code returns `cache[url][1]`, which
is the payload it has just written. -/
def get_html (e : Env) (st : CState) (url : String)
    (params : List (String × String)) (use_cache : Bool) :
    Except PyErr String × CState :=
  let st1 := ensureLoaded e st
  let u := withQuery url params
  let store := st1.cache.getD []
  -- `if url in cache and _cache_entry_is_valid(url) and use_cache`
  let fetch : Except PyErr String × CState :=
    let st2 := { st1 with trace := st1.trace ++ [u] }   -- requests.get(url)
    let r := e.origin u
    if 400 ≤ r.1 then (Except.error (PyErr.httpError r.1), st2)  -- raise_for_status
    else
      match classifyTreatment e u st2.rng r.2 with
      | Except.error err => (Except.error err, st2)
      | Except.ok (en, rng2) =>
        (Except.ok en.2,
          { st2 with cache := some (dictSet store u en), rng := rng2 })
  match dictGet? store u with
  | some en =>
    if decide (e.now < en.1) && use_cache then (Except.ok en.2, st1) else fetch
  | none => fetch

/-- `reset()`: `cache.clear()`. -/
def reset (e : Env) (st : CState) : CState :=
  let st1 := ensureLoaded e st
  { st1 with cache := some [] }

/-- `remove_invalid_entries(urls)` (lines 244–267): collect the set of timed
out urls first (`hit_list`, a Python `set`), then pop them. -/
def remove_invalid_entries (e : Env) (st : CState) (urls : Option (List String)) : CState :=
  let st1 := ensureLoaded e st
  let store := st1.cache.getD []
  let us := (match urls with | none => store.map Prod.fst | some l => l)
  let hit_list :=
    (us.filter (fun u => dictMem store u && ! cache_entry_is_valid e store u)).dedup
  { st1 with cache := some (hit_list.foldl dictPop store) }

/-! ## Bulk fetch path (`get_html_async`, lines 269–315) -/

/-- The `for future in futures` loop of `get_html_async`: statuses other
than 200 are skipped (`continue # GTFO`); otherwise the entry for
`request.url` is written.  A treatment exception is uncaught and aborts the
loop. -/
def processFutures (e : Env) (st : CState) : List String → Except PyErr Unit × CState
  | [] => (Except.ok (), st)
  | w :: rest =>
    let r := e.origin w
    if r.1 ≠ 200 then processFutures e st rest
    else
      let u := e.finalUrl w          -- url = request.url
      match classifyTreatment e u st.rng r.2 with
      | Except.error err => (Except.error err, st)
      | Except.ok (en, rng2) =>
        processFutures e
          { st with cache := some (dictSet (st.cache.getD []) u en), rng := rng2 } rest

/-- The population phase: `futures = [session.get(url) for url in work_queue]`
dispatches every request up front (hence the whole work queue joins the
trace), then the completed futures are consumed in submission order. -/
def populate (e : Env) (st : CState) (work : List String) : Except PyErr Unit × CState :=
  processFutures e { st with trace := st.trace ++ work } work

/-- The returned generator `(get_html(url) for url in urls)`, fully
materialised: `get_html` with default arguments, in input order, stopping at
the first raised exception. -/
def run_get_htmls (e : Env) (st : CState) : List String → Except PyErr (List String) × CState
  | [] => (Except.ok [], st)
  | u :: rest =>
    match get_html e st u [] true with
    | (Except.error err, st2) => (Except.error err, st2)
    | (Except.ok h, st2) =>
      match run_get_htmls e st2 rest with
      | (Except.error err, st3) => (Except.error err, st3)
      | (Except.ok hs, st3) => (Except.ok (h :: hs), st3)

/-- `get_html_async(urls, n_workers, use_cache)`: sweep the given urls,
partition into the work queue (`url not in cache or not use_cache`), populate
the cache from the concurrent fetches, then read every url back through
`get_html`.  `n_workers` only bounds the worker pool, which the sequential
model abstracts; the futures are consumed in submission order in the source,
so completion order never influences the result. -/
def get_html_async (e : Env) (st : CState) (urls : List String)
    (n_workers : ℕ) (use_cache : Bool) : Except PyErr (List String) × CState :=
  let st1 := ensureLoaded e st
  let st2 := remove_invalid_entries e st1 (some urls)
  let store := st2.cache.getD []
  let work_queue := urls.filter (fun u => ! dictMem store u || ! use_cache)
  match populate e st2 work_queue with
  | (Except.error err, st3) => (Except.error err, st3)
  | (Except.ok _, st3) => run_get_htmls e st3 urls

/-! ## The real-valued jitter formula (for the numerical claim)

`random.expovariate(lambd)` is `-log(1 - u) / lambd` for a uniform sample
`u ∈ [0, 1)`; over `ℝ` this is the exponential distribution with rate
`lambd`.  The code's rate is `0.693147 / half_life`. -/

/-- `random.expovariate` over `ℝ`, as a function of its uniform sample. -/
noncomputable def expovariateR (lambdR u : ℝ) : ℝ := -Real.log (1 - u) / lambdR

/-- `_random_radioactive_lifetime` over `ℝ` as a function of the uniform
sample behind `random.expovariate` (with `cutoff = True`). -/
noncomputable def radioactiveLifetimeR (half_life u : ℝ) : ℝ :=
  min (expovariateR ((693147 : ℝ) / 1000000 / half_life) u) (half_life * 4)

/-! ## Dictionary lemmas -/

theorem dictGet?_set_self (s : Store) (k : String) (v : Entry) :
    dictGet? (dictSet s k v) k = some v := by
  induction s with
  | nil => simp [dictSet, dictGet?]
  | cons kv s ih =>
    by_cases h : kv.1 = k
    · simp [dictSet, dictGet?, h]
    · simp [dictSet, dictGet?, h, ih]

theorem dictGet?_set_ne (s : Store) (k j : String) (v : Entry) (hj : j ≠ k) :
    dictGet? (dictSet s k v) j = dictGet? s j := by
  induction s with
  | nil => simp [dictSet, dictGet?, Ne.symm hj]
  | cons kv s ih =>
    by_cases h : kv.1 = k
    · subst h
      simp [dictSet, dictGet?, Ne.symm hj, hj]
    · by_cases h2 : kv.1 = j
      · simp [dictSet, dictGet?, h, h2, hj]
      · simp [dictSet, dictGet?, h, h2, ih]

theorem dictGet?_pop_self (s : Store) (k : String) :
    dictGet? (dictPop s k) k = none := by
  induction s with
  | nil => simp [dictPop, dictGet?]
  | cons kv s ih =>
    by_cases h : kv.1 = k
    · simpa [dictPop, dictGet?, h] using ih
    · simpa [dictPop, dictGet?, h] using ih

theorem dictGet?_pop_ne (s : Store) (k j : String) (hj : j ≠ k) :
    dictGet? (dictPop s k) j = dictGet? s j := by
  induction s with
  | nil => simp [dictPop, dictGet?]
  | cons kv s ih =>
    by_cases h : kv.1 = k
    · subst h
      simp [dictPop, dictGet?, Ne.symm hj, ih]
    · by_cases h2 : kv.1 = j
      · simp [dictPop, dictGet?, h, h2, hj, ih]
      · simp [dictPop, dictGet?, h, h2, ih]

theorem dictGet?_foldl_pop (l : List String) (s : Store) (k : String) :
    dictGet? (l.foldl dictPop s) k = if k ∈ l then none else dictGet? s k := by
  induction l generalizing s with
  | nil => simp
  | cons a l ih =>
    by_cases hk : k = a
    · subst hk
      by_cases hm : k ∈ l
      · simp [List.foldl, ih, hm]
      · simp [List.foldl, ih, hm, dictGet?_pop_self]
    · by_cases hm : k ∈ l
      · simp [List.foldl, ih, hm, hk]
      · simp [List.foldl, ih, hm, hk, dictGet?_pop_ne s a k hk]

theorem dictMem_iff (s : Store) (k : String) :
    dictMem s k = true ↔ ∃ en, dictGet? s k = some en := by
  unfold dictMem
  cases h : dictGet? s k <;> simp [Option.isSome, h]

/-! ## Sweep characterisation -/

/-- Membership in the `hit_list` that `remove_invalid_entries` collects. -/
theorem mem_hit_list (e : Env) (store : Store) (us : List String) (k : String) :
    k ∈ (us.filter (fun u => dictMem store u && ! cache_entry_is_valid e store u)).dedup
      ↔ k ∈ us ∧ ∃ en, dictGet? store k = some en ∧ en.1 ≤ e.now := by
  rw [List.mem_dedup, List.mem_filter]
  constructor
  · rintro ⟨hmem, hcond⟩
    refine ⟨hmem, ?_⟩
    simp only [Bool.and_eq_true, Bool.not_eq_true'] at hcond
    rcases hcond with ⟨hm, hv⟩
    rcases (dictMem_iff store k).mp hm with ⟨en, hen⟩
    refine ⟨en, hen, ?_⟩
    unfold cache_entry_is_valid at hv
    rw [hen] at hv
    simpa using hv
  · rintro ⟨hmem, en, hen, hle⟩
    refine ⟨hmem, ?_⟩
    have hm : dictMem store k = true := (dictMem_iff store k).mpr ⟨en, hen⟩
    have hv : cache_entry_is_valid e store k = false := by
      unfold cache_entry_is_valid
      rw [hen]
      simpa using hle
    simp [hm, hv]

/-- Full characterisation of the Invalidation Sweep on a loaded store: the
resulting store is a pure function of the pre-call store — the keys to
delete are collected against the pre-call entries before any deletion — and
a key is deleted exactly when it is in `urls` with an expired entry. -/
theorem remove_invalid_entries_spec (e : Env) (st : CState) (store : Store)
    (urls : List String) (h : st.cache = some store) :
    ∃ store', remove_invalid_entries e st (some urls) = { st with cache := some store' } ∧
      ∀ k, dictGet? store' k =
        if k ∈ urls ∧ ∃ en, dictGet? store k = some en ∧ en.1 ≤ e.now
        then none else dictGet? store k := by
  have hsome : st.cache.isSome = true := by rw [h]; rfl
  refine ⟨((urls.filter
      (fun u => dictMem store u && ! cache_entry_is_valid e store u)).dedup).foldl
        dictPop store, ?_, ?_⟩
  · unfold remove_invalid_entries ensureLoaded
    rw [hsome]
    simp [h]
  · intro k
    rw [dictGet?_foldl_pop]
    by_cases hk : k ∈ urls ∧ ∃ en, dictGet? store k = some en ∧ en.1 ≤ e.now
    · rw [if_pos ((mem_hit_list e store urls k).mpr hk), if_pos hk]
    · rw [if_neg (fun hmem => hk ((mem_hit_list e store urls k).mp hmem)), if_neg hk]

/-! ## Single fetch path: branch lemmas -/

theorem ensureLoaded_of_some (e : Env) (st : CState) (store : Store)
    (h : st.cache = some store) : ensureLoaded e st = st := by
  unfold ensureLoaded
  rw [h]
  rfl

/-- Cache hit: a present entry with `now < timeout` and `use_cache` makes
`get_html` return the stored payload with the state untouched. -/
theorem get_html_hit (e : Env) (st : CState) (store : Store) (url : String)
    (params : List (String × String)) (use_cache : Bool) (en : Entry)
    (h : st.cache = some store)
    (hen : dictGet? store (withQuery url params) = some en)
    (hv : (decide (e.now < en.1) && use_cache) = true) :
    get_html e st url params use_cache = (Except.ok en.2, st) := by
  unfold get_html
  rw [ensureLoaded_of_some e st store h]
  simp only [h, Option.getD_some, hen, hv, if_true]

/-- Cache miss with failing status: `raise_for_status` raises, nothing is
written, only the fetch is recorded. -/
theorem get_html_miss_fail (e : Env) (st : CState) (store : Store) (url : String)
    (params : List (String × String)) (use_cache : Bool)
    (h : st.cache = some store)
    (hmiss : (cache_entry_is_valid e store (withQuery url params) && use_cache) = false)
    (hst : 400 ≤ (e.origin (withQuery url params)).1) :
    get_html e st url params use_cache =
      (Except.error (PyErr.httpError (e.origin (withQuery url params)).1),
        { st with trace := st.trace ++ [withQuery url params] }) := by
  unfold get_html
  rw [ensureLoaded_of_some e st store h]
  simp only [h, Option.getD_some]
  unfold cache_entry_is_valid at hmiss
  cases hget : dictGet? store (withQuery url params) with
  | none => simp [hget, hst]
  | some en =>
    rw [hget] at hmiss
    simp [hget, hmiss, hst]

/-- Cache miss, good status, treatment succeeds: the produced entry is
written under the url and its payload returned. -/
theorem get_html_miss_ok (e : Env) (st : CState) (store : Store) (url : String)
    (params : List (String × String)) (use_cache : Bool) (en : Entry) (rng2 : ℕ)
    (h : st.cache = some store)
    (hmiss : (cache_entry_is_valid e store (withQuery url params) && use_cache) = false)
    (hst : (e.origin (withQuery url params)).1 < 400)
    (hcl : classifyTreatment e (withQuery url params) st.rng
      (e.origin (withQuery url params)).2 = Except.ok (en, rng2)) :
    get_html e st url params use_cache =
      (Except.ok en.2,
        { st with cache := some (dictSet store (withQuery url params) en),
                  rng := rng2,
                  trace := st.trace ++ [withQuery url params] }) := by
  unfold get_html
  rw [ensureLoaded_of_some e st store h]
  simp only [h, Option.getD_some]
  unfold cache_entry_is_valid at hmiss
  have hst' : ¬ 400 ≤ (e.origin (withQuery url params)).1 := by omega
  cases hget : dictGet? store (withQuery url params) with
  | none => simp [hget, hst', hcl]
  | some en' =>
    rw [hget] at hmiss
    simp [hget, hmiss, hst', hcl]

/-- Cache miss, good status, treatment raises: the exception propagates and
nothing is written. -/
theorem get_html_miss_err (e : Env) (st : CState) (store : Store) (url : String)
    (params : List (String × String)) (use_cache : Bool) (err : PyErr)
    (h : st.cache = some store)
    (hmiss : (cache_entry_is_valid e store (withQuery url params) && use_cache) = false)
    (hst : (e.origin (withQuery url params)).1 < 400)
    (hcl : classifyTreatment e (withQuery url params) st.rng
      (e.origin (withQuery url params)).2 = Except.error err) :
    get_html e st url params use_cache =
      (Except.error err, { st with trace := st.trace ++ [withQuery url params] }) := by
  unfold get_html
  rw [ensureLoaded_of_some e st store h]
  simp only [h, Option.getD_some]
  unfold cache_entry_is_valid at hmiss
  have hst' : ¬ 400 ≤ (e.origin (withQuery url params)).1 := by omega
  cases hget : dictGet? store (withQuery url params) with
  | none => simp [hget, hst', hcl]
  | some en' =>
    rw [hget] at hmiss
    simp [hget, hmiss, hst', hcl]

/-! ## Concrete fixtures used by witnesses and counterexamples -/

/-- A concrete environment: every GET answers `200 / "B"`, no redirects,
PRNG samples all `0`, parsing yields an empty document, empty shelf. -/
def wEnv : Env :=
  { now := 10, todayYear := 2026, todayMonth := 10,
    origin := fun _ => (200, "B"), finalUrl := fun u => u, draws := fun _ => 0,
    trimHtml := fun s => s, parseHtml := fun _ => [], disk := fun _ => [],
    dateTimestamp := fun _ _ _ => 0 }

/-- A store with one valid entry (`"a"`, times out at 20 > now = 10) and one
expired entry (`"b"`, timed out at 5 < 10). -/
def wStore : Store := [("a", (20, "PA")), ("b", (5, "PB"))]

/-- A loaded module state over `wStore`. -/
def wState : CState := { cache := some wStore, rng := 0, atexitCloses := 1, trace := [] }

/-! ## Claim C4 — valid cache hit -/

/-- C4: for a key with a valid (non-expired) entry, `get_html` with
`use_cache = true` returns the stored payload, issues no origin call and
leaves the module state (store included) completely unchanged; a second
consecutive call returns the identical payload, again with zero origin
calls. -/
theorem claim_C4 (e : Env) (st : CState) (store : Store) (url : String)
    (params : List (String × String)) (en : Entry)
    (h : st.cache = some store)
    (hen : dictGet? store (withQuery url params) = some en)
    (hv : e.now < en.1) :
    get_html e st url params true = (Except.ok en.2, st) ∧
    (get_html e st url params true).2.trace = st.trace ∧
    get_html e (get_html e st url params true).2 url params true = (Except.ok en.2, st) := by
  have h1 := get_html_hit e st store url params true en h hen (by simp [hv])
  refine ⟨h1, by rw [h1], ?_⟩
  rw [h1]
  exact get_html_hit e st store url params true en h hen (by simp [hv])

theorem claim_C4_witness :
    get_html wEnv wState "a" [] true = (Except.ok "PA", wState) :=
  (claim_C4 wEnv wState wStore "a" [] (20, "PA") rfl (by rfl) (by norm_num [wEnv])).1

/-! ## Claim C5 — failing fetch writes nothing; entries only from successes -/

/-- C5: when the fetch branch is taken and the origin status is an HTTP
error (`raise_for_status` semantics: status ≥ 400), `get_html` raises
`HTTPError` and writes nothing; and in all cases, any binding of the
post-call store either was already present or is the url's binding produced
by a successful (status < 400) fetch whose treatment completed
successfully. -/
theorem claim_C5 (e : Env) (st : CState) (store : Store) (url : String)
    (params : List (String × String)) (use_cache : Bool)
    (h : st.cache = some store) :
    ((cache_entry_is_valid e store (withQuery url params) && use_cache) = false →
      400 ≤ (e.origin (withQuery url params)).1 →
      (get_html e st url params use_cache).1 =
        Except.error (PyErr.httpError (e.origin (withQuery url params)).1) ∧
      (get_html e st url params use_cache).2.cache = some store ∧
      (get_html e st url params use_cache).2.rng = st.rng) ∧
    (∀ k v, dictGet? ((get_html e st url params use_cache).2.cache.getD []) k = some v →
      dictGet? store k = some v ∨
      (k = withQuery url params ∧ (e.origin (withQuery url params)).1 < 400 ∧
        ∃ rng2, classifyTreatment e (withQuery url params) st.rng
          (e.origin (withQuery url params)).2 = Except.ok (v, rng2))) := by
  constructor
  · intro hmiss hst
    rw [get_html_miss_fail e st store url params use_cache h hmiss hst]
    exact ⟨rfl, by simpa using h, rfl⟩
  · intro k v hk
    by_cases hhit : (cache_entry_is_valid e store (withQuery url params) && use_cache) = true
    · have hv : cache_entry_is_valid e store (withQuery url params) = true :=
        (Bool.and_eq_true_iff.mp hhit).1
      have huse : use_cache = true := (Bool.and_eq_true_iff.mp hhit).2
      unfold cache_entry_is_valid at hv
      cases hget : dictGet? store (withQuery url params) with
      | none => rw [hget] at hv; cases hv
      | some en =>
        rw [hget] at hv
        have hv' : decide (e.now < en.1) = true := hv
        rw [huse, get_html_hit e st store url params true en h hget (by simp [hv'])] at hk
        rw [h] at hk
        exact Or.inl hk
    · have hmiss : (cache_entry_is_valid e store (withQuery url params) && use_cache) = false :=
        Bool.eq_false_iff.mpr hhit
      by_cases hst : 400 ≤ (e.origin (withQuery url params)).1
      · rw [get_html_miss_fail e st store url params use_cache h hmiss hst] at hk
        rw [h] at hk
        exact Or.inl hk
      · have hst' : (e.origin (withQuery url params)).1 < 400 := by omega
        cases hcl : classifyTreatment e (withQuery url params) st.rng
            (e.origin (withQuery url params)).2 with
        | error err =>
          rw [get_html_miss_err e st store url params use_cache err h hmiss hst' hcl] at hk
          rw [h] at hk
          exact Or.inl hk
        | ok p =>
          rw [get_html_miss_ok e st store url params use_cache p.1 p.2 h hmiss hst'
            (by rw [hcl])] at hk
          have hk2 : dictGet? (dictSet store (withQuery url params) p.1) k = some v := hk
          by_cases hku : k = withQuery url params
          · subst hku
            rw [dictGet?_set_self] at hk2
            injection hk2 with hv2
            refine Or.inr ⟨rfl, hst', p.2, ?_⟩
            rw [← hv2]
          · rw [dictGet?_set_ne store (withQuery url params) k p.1 hku] at hk2
            exact Or.inl hk2

/-- A 404-answering environment. -/
def wEnv404 : Env := { wEnv with origin := fun _ => (404, "E") }

theorem claim_C5_witness :
    (get_html wEnv404 wState "x" [] true).1 = Except.error (PyErr.httpError 404) ∧
    (get_html wEnv404 wState "x" [] true).2.cache = some wStore := by
  obtain ⟨h1, h2, h3⟩ :=
    (claim_C5 wEnv404 wState wStore "x" [] true rfl).1 (by rfl) (by norm_num [wEnv404])
  exact ⟨h1, h2⟩

/-! ## Claim C6 — Invalidation Sweep correctness -/

/-- Working form of the sweep characterisation (shared by several proofs). -/
theorem sweep_char (e : Env) (st : CState) (store : Store) (urls : List String)
    (h : st.cache = some store) :
    ∃ store', remove_invalid_entries e st (some urls) = { st with cache := some store' } ∧
      (∀ k en, k ∈ urls → dictGet? store k = some en → en.1 ≤ e.now →
        dictGet? store' k = none) ∧
      (∀ k en, dictGet? store k = some en → e.now < en.1 →
        dictGet? store' k = some en) ∧
      (∀ k, k ∉ urls → dictGet? store' k = dictGet? store k) := by
  obtain ⟨store', heq, hchar⟩ := remove_invalid_entries_spec e st store urls h
  refine ⟨store', heq, ?_, ?_, ?_⟩
  · intro k en hk hen hle
    rw [hchar k, if_pos ⟨hk, en, hen, hle⟩]
  · intro k en hen hv
    rw [hchar k, if_neg, hen]
    rintro ⟨-, en', hen', hle'⟩
    rw [hen] at hen'
    cases hen'
    exact absurd hv (not_lt.mpr hle')
  · intro k hk
    rw [hchar k, if_neg]
    rintro ⟨hk', -⟩
    exact hk hk'

/-- C6: after `remove_invalid_entries(urls)` every url of `urls` whose entry
had already timed out is gone; every valid entry (and every key outside
`urls`) keeps its exact `(timeout, html)` binding; only the `cache` field of
the state changes, and it is a pure function of the pre-call store (the
`hit_list` set is collected before any `pop`). -/
theorem claim_C6 (e : Env) (st : CState) (store : Store) (urls : List String)
    (h : st.cache = some store) :
    ∃ store', remove_invalid_entries e st (some urls) = { st with cache := some store' } ∧
      (∀ k en, k ∈ urls → dictGet? store k = some en → en.1 ≤ e.now →
        dictGet? store' k = none) ∧
      (∀ k en, dictGet? store k = some en → e.now < en.1 →
        dictGet? store' k = some en) ∧
      (∀ k, k ∉ urls → dictGet? store' k = dictGet? store k) :=
  sweep_char e st store urls h

theorem claim_C6_witness :
    dictGet? ((remove_invalid_entries wEnv wState (some ["a", "b"])).cache.getD []) "b"
      = none ∧
    dictGet? ((remove_invalid_entries wEnv wState (some ["a", "b"])).cache.getD []) "a"
      = some (20, "PA") := by
  obtain ⟨store', heq, h1, h2, h3⟩ := claim_C6 wEnv wState wStore ["a", "b"] rfl
  rw [heq]
  exact ⟨h1 "b" (5, "PB") (by simp) rfl (by norm_num [wEnv]),
    h2 "a" (20, "PA") rfl (by norm_num [wEnv])⟩

/-! ## Claim C8 — ordered first-match-wins classification -/

/-- C8: the `(predicate, treatment)` table is evaluated in registration
order and the first predicate returning true selects the treatment; the
default treatment applies when none matches; in particular a key matched by
both the first and the second predicate gets the first (earlier-registered)
treatment — expiry policy included, since on a miss `get_html` writes
exactly the entry produced by the selected treatment. -/
theorem claim_C8 (e : Env) (url : String) :
    (is_curricular_unit url = true →
      classifyTreatment e url = curricular_unit_treatment e) ∧
    (is_curricular_unit url = false → is_teacher url = true →
      classifyTreatment e url = teacher_treatment e) ∧
    (is_curricular_unit url = false → is_teacher url = false → is_student url = true →
      classifyTreatment e url = student_treatment e) ∧
    (is_curricular_unit url = false → is_teacher url = false → is_student url = false →
      classifyTreatment e url = default_treatment e) ∧
    (is_curricular_unit url = true → is_teacher url = true →
      classifyTreatment e url = curricular_unit_treatment e) ∧
    (∀ st store en rng2, st.cache = some store →
      (cache_entry_is_valid e store url && true) = false →
      (e.origin url).1 < 400 →
      classifyTreatment e url st.rng (e.origin url).2 = Except.ok (en, rng2) →
      (get_html e st url [] true).2.cache = some (dictSet store url en)) := by
  refine ⟨?_, ?_, ?_, ?_, ?_, ?_⟩
  · intro h1
    simp [classifyTreatment, custom_treatments, List.find?, h1]
  · intro h1 h2
    simp [classifyTreatment, custom_treatments, List.find?, h1, h2]
  · intro h1 h2 h3
    simp [classifyTreatment, custom_treatments, List.find?, h1, h2, h3]
  · intro h1 h2 h3
    simp [classifyTreatment, custom_treatments, List.find?, h1, h2, h3]
  · intro h1 h2
    simp [classifyTreatment, custom_treatments, List.find?, h1]
  · intro st store en rng2 h hmiss hst hcl
    rw [get_html_miss_ok e st store url [] true en rng2 h hmiss hst hcl]
    rfl

/-- A url matched by both the curricular-unit and the teacher predicate. -/
def wBothUrl : String := "ucurr_geral.ficha_uc_view/func_geral.formview"

theorem claim_C8_witness :
    classifyTreatment wEnv wBothUrl = curricular_unit_treatment wEnv :=
  (claim_C8 wEnv wBothUrl).2.2.2.2.1 (by decide) (by decide)

/-! ## Claim C9 — lazy, idempotent store initialisation -/

theorem ensureLoaded_isSome (e : Env) (st : CState) :
    (ensureLoaded e st).cache.isSome = true := by
  unfold ensureLoaded load_cache
  by_cases h : st.cache.isSome = true
  · simpa [h] using h
  · simp [h]

theorem ensureLoaded_idem (e : Env) (st : CState) :
    ensureLoaded e (ensureLoaded e st) = ensureLoaded e st := by
  unfold ensureLoaded load_cache
  by_cases h : st.cache.isSome = true
  · simp [h]
  · simp [h]

/-- C9: `load_cache` is lazy and idempotent — the first call (on a still
unloaded state) opens the shelf from disk and registers one more
`atexit` close; any call on an already loaded state is a no-op whatever its
`flag`/`path` arguments; loading twice equals loading once; and each public
operation behaves as if it had loaded the store first (`ensureLoaded`, the
`if cache == None: load_cache()` guard, which is exactly
`load_cache("c", None)` on an unloaded state). -/
theorem claim_C9 (e : Env) (st : CState) (flag : String) (path : Option String)
    (flag2 : String) (path2 : Option String) (url : String)
    (params : List (String × String)) (use_cache : Bool) (urls : List String)
    (n_workers : ℕ) :
    (st.cache = none →
      load_cache e st flag path =
        { st with
            cache := some (e.disk
              ((match path with | none => defaultPath | some q => q) ++ "/cache")),
            atexitCloses := st.atexitCloses + 1 }) ∧
    (∀ store, st.cache = some store → load_cache e st flag path = st) ∧
    (load_cache e (load_cache e st flag path) flag2 path2 = load_cache e st flag path) ∧
    (st.cache = none → ensureLoaded e st = load_cache e st "c" none) ∧
    (get_html e st url params use_cache =
      get_html e (ensureLoaded e st) url params use_cache) ∧
    (remove_invalid_entries e st (some urls) =
      remove_invalid_entries e (ensureLoaded e st) (some urls)) ∧
    (get_html_async e st urls n_workers use_cache =
      get_html_async e (ensureLoaded e st) urls n_workers use_cache) ∧
    (reset e st = reset e (ensureLoaded e st)) := by
  refine ⟨?_, ?_, ?_, ?_, ?_, ?_, ?_, ?_⟩
  · intro h
    simp [load_cache, h]
  · intro store h
    simp [load_cache, h]
  · by_cases h : st.cache.isSome = true
    · simp [load_cache, h]
    · simp only [load_cache, h, if_false]
      rfl
  · intro h
    simp [ensureLoaded, h]
  · unfold get_html
    rw [ensureLoaded_idem]
  · unfold remove_invalid_entries
    rw [ensureLoaded_idem]
  · unfold get_html_async
    rw [ensureLoaded_idem]
  · unfold reset
    rw [ensureLoaded_idem]

/-- An unloaded initial state. -/
def wStateNone : CState := { cache := none, rng := 0, atexitCloses := 0, trace := [] }

theorem claim_C9_witness :
    load_cache wEnv wStateNone "c" none =
      { cache := some [], rng := 0, atexitCloses := 1, trace := [] } ∧
    load_cache wEnv (load_cache wEnv wStateNone "c" none) "r" (some "elsewhere") =
      load_cache wEnv wStateNone "c" none ∧
    load_cache wEnv wState "n" (some "elsewhere") = wState := by
  refine ⟨?_, ?_, ?_⟩
  · have h := (claim_C9 wEnv wStateNone "c" none "r" (some "elsewhere") "u" [] true [] 10).1 rfl
    exact h
  · exact (claim_C9 wEnv wStateNone "c" none "r" (some "elsewhere") "u" [] true [] 10).2.2.1
  · exact (claim_C9 wEnv wState "n" (some "elsewhere") "r" none "u" [] true [] 10).2.1 wStore rfl

/-! ## Trace and state bookkeeping lemmas -/

theorem ensureLoaded_trace (e : Env) (st : CState) :
    (ensureLoaded e st).trace = st.trace := by
  unfold ensureLoaded load_cache
  by_cases h : st.cache.isSome = true
  · simp [h]
  · simp [h]

theorem getD_of_eq_some (st : CState) (store : Store) (h : st.cache = some store) :
    st.cache.getD [] = store := by
  rw [h]
  rfl

theorem cache_eq_some_getD (e : Env) (st : CState) :
    (ensureLoaded e st).cache = some ((ensureLoaded e st).cache.getD []) := by
  have hsome := ensureLoaded_isSome e st
  cases hcase : (ensureLoaded e st).cache with
  | none => rw [hcase] at hsome; cases hsome
  | some s => rfl

theorem get_html_eq_ensure (e : Env) (st : CState) (url : String)
    (params : List (String × String)) (uc : Bool) :
    get_html e st url params uc = get_html e (ensureLoaded e st) url params uc := by
  unfold get_html
  rw [ensureLoaded_idem]

/-- `get_html` only ever appends the fetched url (if any) to the trace. -/
theorem get_html_trace_mono (e : Env) (st : CState) (url : String)
    (params : List (String × String)) (uc : Bool) :
    ∃ t, (get_html e st url params uc).2.trace = st.trace ++ t := by
  rw [get_html_eq_ensure]
  have h : (ensureLoaded e st).cache = some ((ensureLoaded e st).cache.getD []) :=
    cache_eq_some_getD e st
  set st1 := ensureLoaded e st with hst1
  set store := st1.cache.getD [] with hstore
  have hens : st1.trace = st.trace := ensureLoaded_trace e st
  by_cases hhit : (cache_entry_is_valid e store (withQuery url params) && uc) = true
  · have hv : cache_entry_is_valid e store (withQuery url params) = true :=
      (Bool.and_eq_true_iff.mp hhit).1
    have huse : uc = true := (Bool.and_eq_true_iff.mp hhit).2
    unfold cache_entry_is_valid at hv
    cases hget : dictGet? store (withQuery url params) with
    | none => rw [hget] at hv; cases hv
    | some en =>
      rw [hget] at hv
      have hv' : decide (e.now < en.1) = true := hv
      rw [huse, get_html_hit e st1 store url params true en h hget (by simp [hv'])]
      exact ⟨[], by simp [hens]⟩
  · have hmiss : (cache_entry_is_valid e store (withQuery url params) && uc) = false :=
      Bool.eq_false_iff.mpr hhit
    by_cases hst4 : 400 ≤ (e.origin (withQuery url params)).1
    · rw [get_html_miss_fail e st1 store url params uc h hmiss hst4]
      exact ⟨[withQuery url params], by simp [hens]⟩
    · have hst' : (e.origin (withQuery url params)).1 < 400 := by omega
      cases hcl : classifyTreatment e (withQuery url params) st1.rng
          (e.origin (withQuery url params)).2 with
      | error err =>
        rw [get_html_miss_err e st1 store url params uc err h hmiss hst' hcl]
        exact ⟨[withQuery url params], by simp [hens]⟩
      | ok p =>
        rw [get_html_miss_ok e st1 store url params uc p.1 p.2 h hmiss hst' (by rw [hcl])]
        exact ⟨[withQuery url params], by simp [hens]⟩

/-- The future-consuming loop never fetches anything new (all the requests
were dispatched when the futures were created). -/
theorem processFutures_trace (e : Env) (st : CState) (l : List String) :
    (processFutures e st l).2.trace = st.trace := by
  induction l generalizing st with
  | nil => rfl
  | cons w rest ih =>
    unfold processFutures
    by_cases hs : (e.origin w).1 ≠ 200
    · rw [if_pos hs]
      exact ih st
    · rw [if_neg hs]
      cases hcl : classifyTreatment e (e.finalUrl w) st.rng (e.origin w).2 with
      | error err => simp only [hcl]
      | ok p =>
        obtain ⟨en, rng2⟩ := p
        simp only [hcl]
        exact ih _

theorem populate_trace (e : Env) (st : CState) (work : List String) :
    (populate e st work).2.trace = st.trace ++ work := by
  unfold populate
  rw [processFutures_trace]

theorem run_get_htmls_trace_mono (e : Env) (st : CState) (l : List String) :
    ∃ t, (run_get_htmls e st l).2.trace = st.trace ++ t := by
  induction l generalizing st with
  | nil => exact ⟨[], by simp [run_get_htmls]⟩
  | cons u rest ih =>
    obtain ⟨t1, ht1⟩ := get_html_trace_mono e st u [] true
    cases hg : get_html e st u [] true with
    | mk r st2 =>
      have ht1' : st2.trace = st.trace ++ t1 := by rw [hg] at ht1; exact ht1
      cases r with
      | error err =>
        refine ⟨t1, ?_⟩
        unfold run_get_htmls
        simp only [hg]
        exact ht1'
      | ok hh =>
        obtain ⟨t2, ht2⟩ := ih st2
        cases hrun : run_get_htmls e st2 rest with
        | mk r2 st3 =>
          have ht2' : st3.trace = st2.trace ++ t2 := by rw [hrun] at ht2; exact ht2
          refine ⟨t1 ++ t2, ?_⟩
          unfold run_get_htmls
          cases r2 with
          | error err2 =>
            simp only [hg, hrun]
            rw [ht2', ht1', List.append_assoc]
          | ok hs2 =>
            simp only [hg, hrun]
            rw [ht2', ht1', List.append_assoc]

/-- `get_html_async` on a loaded state, with the initial `ensureLoaded`
resolved. -/
theorem get_html_async_unfold (e : Env) (st : CState) (urls : List String)
    (n_workers : ℕ) (uc : Bool) (store : Store) (h : st.cache = some store) :
    get_html_async e st urls n_workers uc =
      (match populate e (remove_invalid_entries e st (some urls))
          (urls.filter (fun u =>
            ! dictMem ((remove_invalid_entries e st (some urls)).cache.getD []) u || ! uc)) with
       | (Except.error err, st3) => (Except.error err, st3)
       | (Except.ok _, st3) => run_get_htmls e st3 urls) := by
  unfold get_html_async
  rw [ensureLoaded_of_some e st store h]

/-! ## Claim C10 — strict validity comparison -/

/-- C10: an entry is valid iff its timeout is *strictly* greater than the
current time; an entry whose timeout equals the current time is already
expired: it is evicted by the sweep, and it makes both fetch paths issue an
origin fetch for the key. -/
theorem claim_C10 (e : Env) (st : CState) (store : Store) (k : String) (p : String)
    (n_workers : ℕ) :
    (cache_entry_is_valid e store k = true ↔
      ∃ en, dictGet? store k = some en ∧ e.now < en.1) ∧
    (dictGet? store k = some (e.now, p) → cache_entry_is_valid e store k = false) ∧
    (st.cache = some store → dictGet? store k = some (e.now, p) →
      dictGet? ((remove_invalid_entries e st (some [k])).cache.getD []) k = none) ∧
    (st.cache = some store → dictGet? store k = some (e.now, p) →
      (get_html e st k [] true).2.trace = st.trace ++ [k]) ∧
    (st.cache = some store → dictGet? store k = some (e.now, p) →
      k ∈ (get_html_async e st [k] n_workers true).2.trace) := by
  have hval : ∀ q : String, dictGet? store k = some (e.now, q) →
      cache_entry_is_valid e store k = false := by
    intro q hk
    unfold cache_entry_is_valid
    rw [hk]
    simp
  refine ⟨?_, hval p, ?_, ?_, ?_⟩
  · constructor
    · intro hv
      unfold cache_entry_is_valid at hv
      cases hget : dictGet? store k with
      | none => rw [hget] at hv; cases hv
      | some en =>
        rw [hget] at hv
        have hv' : decide (e.now < en.1) = true := hv
        exact ⟨en, rfl, of_decide_eq_true hv'⟩
    · rintro ⟨en, hen, hlt⟩
      unfold cache_entry_is_valid
      rw [hen]
      simpa using hlt
  · intro h hk
    obtain ⟨store', heq, h1, h2, h3⟩ := sweep_char e st store [k] h
    rw [heq]
    have : dictGet? store' k = none := h1 k (e.now, p) (by simp) hk (le_refl _)
    simpa using this
  · intro h hk
    have hmiss : (cache_entry_is_valid e store (withQuery k []) && true) = false := by
      have : withQuery k [] = k := rfl
      rw [this, hval p hk]
      rfl
    by_cases hst4 : 400 ≤ (e.origin (withQuery k [])).1
    · rw [get_html_miss_fail e st store k [] true h hmiss hst4]
      rfl
    · have hst' : (e.origin (withQuery k [])).1 < 400 := by omega
      cases hcl : classifyTreatment e (withQuery k []) st.rng (e.origin (withQuery k [])).2 with
      | error err =>
        rw [get_html_miss_err e st store k [] true err h hmiss hst' hcl]
        rfl
      | ok q =>
        rw [get_html_miss_ok e st store k [] true q.1 q.2 h hmiss hst' (by rw [hcl])]
        rfl
  · intro h hk
    rw [get_html_async_unfold e st [k] n_workers true store h]
    obtain ⟨store', heq, h1, h2, h3⟩ := sweep_char e st store [k] h
    have hnone : dictGet? store' k = none := h1 k (e.now, p) (by simp) hk (le_refl _)
    rw [heq]
    have hwork : List.filter (fun u =>
        ! dictMem (({ st with cache := some store' } : CState).cache.getD []) u || ! true) [k]
        = [k] := by
      simp [dictMem, hnone]
    rw [hwork]
    cases hmatch : populate e ({ st with cache := some store' } : CState) [k] with
    | mk r st3 =>
      have hpop : st3.trace = st.trace ++ [k] := by
        have hh := populate_trace e ({ st with cache := some store' } : CState) [k]
        rw [hmatch] at hh
        exact hh
      cases r with
      | error err =>
        simp only [hmatch]
        simp [hpop]
      | ok u =>
        obtain ⟨t, ht⟩ := run_get_htmls_trace_mono e st3 [k]
        simp only [hmatch]
        simp [ht, hpop]

/-! ## Classification helpers: which treatment, and rng-independence -/

theorem classify_eq_cu (e : Env) (url : String) (h1 : is_curricular_unit url = true) :
    classifyTreatment e url = curricular_unit_treatment e := by
  simp [classifyTreatment, custom_treatments, List.find?, h1]

theorem classify_cases (e : Env) (url : String) :
    classifyTreatment e url = curricular_unit_treatment e ∨
    classifyTreatment e url = teacher_treatment e ∨
    classifyTreatment e url = student_treatment e ∨
    classifyTreatment e url = default_treatment e := by
  unfold classifyTreatment custom_treatments
  cases h1 : is_curricular_unit url <;> cases h2 : is_teacher url <;>
    cases h3 : is_student url <;> simp [List.find?, h1, h2, h3]

/-- The treatments draw their expiry jitter from the PRNG, but whether they
succeed, and the payload they produce, depend only on the url and the body:
the PRNG index influences the timeout alone. -/
theorem classify_shape (e : Env) (u b : String) (r : ℕ) :
    (∃ err, classifyTreatment e u r b = Except.error err ∧
      ∀ r2, classifyTreatment e u r2 b = Except.error err) ∨
    (∃ en r2d, classifyTreatment e u r b = Except.ok (en, r2d) ∧
      ∀ r2, ∃ t2 r3, classifyTreatment e u r2 b = Except.ok ((t2, en.2), r3)) := by
  rcases classify_cases e u with hc | hc | hc | hc <;> rw [hc]
  · unfold curricular_unit_treatment
    cases hp : parse_academic_year b with
    | none =>
      simp only [hp]
      exact Or.inr ⟨_, _, rfl, fun r2 => ⟨_, _, rfl⟩⟩
    | some y =>
      simp only [hp, ite_self]
      cases ht : trim_curricular_unit e b with
      | error err =>
        simp only [ht, Except.map]
        exact Or.inl ⟨err, rfl, fun r2 => rfl⟩
      | ok s =>
        simp only [ht, Except.map]
        exact Or.inr ⟨_, _, rfl, fun r2 => ⟨_, _, rfl⟩⟩
  · exact Or.inr ⟨_, _, rfl, fun r2 => ⟨_, _, rfl⟩⟩
  · exact Or.inr ⟨_, _, rfl, fun r2 => ⟨_, _, rfl⟩⟩
  · exact Or.inr ⟨_, _, rfl, fun r2 => ⟨_, _, rfl⟩⟩

/-- The payload the classified treatment produces for a body (`none` when
the treatment raises); by `classify_shape` this is PRNG-independent. -/
def treatPayload (e : Env) (u b : String) : Option String :=
  match classifyTreatment e u 0 b with
  | Except.ok (en, _) => some en.2
  | Except.error _ => none

theorem treatPayload_of_ok (e : Env) (u b : String) (r : ℕ) (en : Entry) (r2 : ℕ)
    (hcl : classifyTreatment e u r b = Except.ok (en, r2)) :
    treatPayload e u b = some en.2 := by
  rcases classify_shape e u b r with ⟨err, herr, _⟩ | ⟨en', r2d, hok, hall⟩
  · rw [herr] at hcl; cases hcl
  · rw [hok] at hcl
    obtain ⟨t0, r0, h0⟩ := hall 0
    injection hcl with hcl1
    have hen : en' = en := congrArg Prod.fst hcl1
    unfold treatPayload
    simp only [h0]
    rw [hen]

theorem treatPayload_of_err (e : Env) (u b : String) (r : ℕ) (err : PyErr)
    (hcl : classifyTreatment e u r b = Except.error err) :
    treatPayload e u b = none := by
  rcases classify_shape e u b r with ⟨err', herr, hall⟩ | ⟨en', r2d, hok, _⟩
  · unfold treatPayload
    rw [hall 0]
  · rw [hok] at hcl; cases hcl

theorem classify_err_all (e : Env) (u b : String) (r : ℕ) (err : PyErr)
    (hcl : classifyTreatment e u r b = Except.error err) :
    ∀ r2, classifyTreatment e u r2 b = Except.error err := by
  rcases classify_shape e u b r with ⟨err', herr, hall⟩ | ⟨en', r2d, hok, _⟩
  · rw [herr] at hcl
    injection hcl with hh
    rw [← hh]
    exact hall
  · rw [hok] at hcl; cases hcl

theorem classify_ok_all (e : Env) (u b : String) (r : ℕ) (x : Entry × ℕ)
    (hcl : classifyTreatment e u r b = Except.ok x) :
    ∀ r2, ∃ x2, classifyTreatment e u r2 b = Except.ok x2 := by
  rcases classify_shape e u b r with ⟨err', herr, _⟩ | ⟨en', r2d, hok, hall⟩
  · rw [herr] at hcl; cases hcl
  · intro r2
    obtain ⟨t2, r3, h2⟩ := hall r2
    exact ⟨_, h2⟩

/-! ## Bulk-fetch refinement machinery -/

theorem withQuery_nil (u : String) : withQuery u [] = u := rfl

/-- `u` starts the bulk operation with a usable cache entry: `use_cache` is
on and the pre-call store holds a still-valid entry. -/
def ValidStart (e : Env) (store0 : Store) (uc : Bool) (u : String) : Prop :=
  uc = true ∧ ∃ en, dictGet? store0 u = some en ∧ e.now < en.1

/-- The payload a single fetch of `u` must deliver, judged against the
pre-call store: the stored payload on a usable hit, otherwise the payload of
the classified treatment over the origin's body. -/
def expectedPayloadStr (e : Env) (store0 : Store) (uc : Bool) (u : String) : String :=
  match dictGet? store0 u with
  | some en =>
    if e.now < en.1 ∧ uc = true then en.2
    else (treatPayload e u ((e.origin u).2)).getD ""
  | none => (treatPayload e u ((e.origin u).2)).getD ""

/-- The invariant that the population phase establishes and the read-back
phase preserves, one key at a time: a usable pre-call entry is untouched,
and any other binding of the key carries the treatment's payload. -/
def InvAt (e : Env) (store0 : Store) (uc : Bool) (u : String) (store' : Store) : Prop :=
  (ValidStart e store0 uc u → dictGet? store' u = dictGet? store0 u) ∧
  (¬ ValidStart e store0 uc u → ∀ en, dictGet? store' u = some en →
    some en.2 = treatPayload e u ((e.origin u).2))

theorem hit_false_of_none (e : Env) (store : Store) (u : String) (uc : Bool)
    (hget : dictGet? store u = none) :
    (cache_entry_is_valid e store u && uc) = false := by
  unfold cache_entry_is_valid
  rw [hget]
  rfl

theorem hit_false_of_stale (e : Env) (store : Store) (u : String) (uc : Bool) (en : Entry)
    (hget : dictGet? store u = some en) (hstale : ¬ e.now < en.1) :
    (cache_entry_is_valid e store u && uc) = false := by
  unfold cache_entry_is_valid
  rw [hget]
  simp [hstale]

/-- One `get_html(url)` call of the read-back phase, on a loaded state, for
a key whose origin answers 200 and whose treatment succeeds: either a cache
hit returning the stored payload, or a fetch that stores the treatment's
entry and returns its payload. -/
theorem get_html_run (e : Env) (st : CState) (store : Store) (u : String)
    (h : st.cache = some store)
    (h200 : (e.origin u).1 = 200)
    (htreat : ∀ r, ∃ x, classifyTreatment e u r ((e.origin u).2) = Except.ok x) :
    (∃ en, dictGet? store u = some en ∧ e.now < en.1 ∧
      get_html e st u [] true = (Except.ok en.2, st)) ∨
    (∃ en rng2, classifyTreatment e u st.rng ((e.origin u).2) = Except.ok (en, rng2) ∧
      get_html e st u [] true =
        (Except.ok en.2,
          { st with
              cache := some (dictSet store u en),
              rng := rng2,
              trace := st.trace ++ [u] })) := by
  have hst400 : (e.origin (withQuery u [])).1 < 400 := by
    rw [withQuery_nil, h200]
    norm_num
  cases hget : dictGet? store u with
  | none =>
    obtain ⟨x, hx⟩ := htreat st.rng
    refine Or.inr ⟨x.1, x.2, hx, ?_⟩
    exact get_html_miss_ok e st store u [] true x.1 x.2 h
      (by rw [withQuery_nil]; exact hit_false_of_none e store u true hget) hst400
      (by rw [withQuery_nil]; exact hx)
  | some en =>
    by_cases hlt : e.now < en.1
    · exact Or.inl ⟨en, rfl, hlt,
        get_html_hit e st store u [] true en h (by rw [withQuery_nil]; exact hget)
          (by simp [hlt])⟩
    · obtain ⟨x, hx⟩ := htreat st.rng
      refine Or.inr ⟨x.1, x.2, hx, ?_⟩
      exact get_html_miss_ok e st store u [] true x.1 x.2 h
        (by rw [withQuery_nil]; exact hit_false_of_stale e store u true en hget hlt) hst400
        (by rw [withQuery_nil]; exact hx)

/-- A key's invariant survives a write to another key, and a write of the
treatment's payload to itself (when it has no usable pre-call entry). -/
theorem invAt_set (e : Env) (store0 : Store) (uc : Bool) (w u : String)
    (store : Store) (en : Entry)
    (hinvw : InvAt e store0 uc w store)
    (hVS : ¬ ValidStart e store0 uc u)
    (hpay : treatPayload e u ((e.origin u).2) = some en.2) :
    InvAt e store0 uc w (dictSet store u en) := by
  by_cases hwu : w = u
  · subst hwu
    refine ⟨fun hVS2 => absurd hVS2 hVS, fun _ en2 hen2 => ?_⟩
    rw [dictGet?_set_self] at hen2
    injection hen2 with hen2
    rw [← hen2, hpay]
  · refine ⟨?_, ?_⟩
    · intro hVS2
      rw [dictGet?_set_ne store u w en hwu]
      exact hinvw.1 hVS2
    · intro hVS2 en2 hen2
      rw [dictGet?_set_ne store u w en hwu] at hen2
      exact hinvw.2 hVS2 en2 hen2

/-- The read-back phase: if every key's origin answers 200, every treatment
succeeds, and the store satisfies the invariant for the protected keys `S`,
then the generator materialises without error into exactly the expected
payloads, in input order, and the invariant persists for all of `S`. -/
theorem run_ok (e : Env) (store0 : Store) (uc : Bool) (S : List String)
    (h200 : ∀ u, (e.origin u).1 = 200)
    (htreat : ∀ u r, ∃ x, classifyTreatment e u r ((e.origin u).2) = Except.ok x) :
    ∀ (rest : List String) (st : CState) (store : Store), st.cache = some store →
      (∀ u, u ∈ S → InvAt e store0 uc u store) →
      (∀ u, u ∈ rest → u ∈ S) →
      ∃ st' store'', run_get_htmls e st rest =
          (Except.ok (rest.map (expectedPayloadStr e store0 uc)), st') ∧
        st'.cache = some store'' ∧
        (∀ u, u ∈ S → InvAt e store0 uc u store'') := by
  intro rest
  induction rest with
  | nil =>
    intro st store h hinv _
    exact ⟨st, store, rfl, h, hinv⟩
  | cons u rest ih =>
    intro st store h hinv hsub
    have hinvu := hinv u (hsub u (by simp))
    by_cases hVS : ValidStart e store0 uc u
    · -- usable pre-call entry: the read is a hit on the untouched entry
      obtain ⟨huc, en, hen0, hlt⟩ := hVS
      have hgetu : dictGet? store u = some en := by
        rw [hinvu.1 ⟨huc, en, hen0, hlt⟩, hen0]
      have hhit := get_html_hit e st store u [] true en h
        (by rw [withQuery_nil]; exact hgetu) (by simp [hlt])
      obtain ⟨st', store'', hrun, hc, hinv'⟩ := ih st store h hinv
        (fun w hw => hsub w (by simp [hw]))
      refine ⟨st', store'', ?_, hc, hinv'⟩
      unfold run_get_htmls
      simp only [hhit, hrun]
      have hexp : expectedPayloadStr e store0 uc u = en.2 := by
        unfold expectedPayloadStr
        simp only [hen0]
        rw [if_pos ⟨hlt, huc⟩]
      rw [List.map_cons, hexp]
    · -- no usable entry: hit-with-treatment-payload, or fetch-and-store
      have hfetch := get_html_run e st store u h (h200 u) (htreat u)
      rcases hfetch with ⟨en, hgetu, hlt, hcall⟩ | ⟨en, rng2, hcl, hcall⟩
      · -- hit on an entry the population phase wrote: its payload is the treatment's
        have hpay : some en.2 = treatPayload e u ((e.origin u).2) :=
          hinvu.2 hVS en hgetu
        obtain ⟨st', store'', hrun, hc, hinv'⟩ := ih st store h hinv
          (fun w hw => hsub w (by simp [hw]))
        refine ⟨st', store'', ?_, hc, hinv'⟩
        unfold run_get_htmls
        simp only [hcall, hrun]
        have hexp : expectedPayloadStr e store0 uc u = en.2 := by
          unfold expectedPayloadStr
          cases hg0 : dictGet? store0 u with
          | none =>
            simp only [hg0]
            rw [← hpay]
            rfl
          | some en0 =>
            simp only [hg0]
            rw [if_neg (fun hcon => hVS ⟨hcon.2, en0, hg0, hcon.1⟩), ← hpay]
            rfl
        rw [List.map_cons, hexp]
      · -- fetch: the new binding carries the treatment's payload
        have hpay : treatPayload e u ((e.origin u).2) = some en.2 :=
          treatPayload_of_ok e u ((e.origin u).2) st.rng en rng2 hcl
        obtain ⟨st', store'', hrun, hc, hinv'⟩ :=
          ih { st with
                cache := some (dictSet store u en),
                rng := rng2,
                trace := st.trace ++ [u] }
            (dictSet store u en) rfl
            (fun w hw => invAt_set e store0 uc w u store en (hinv w hw) hVS hpay)
            (fun w hw => hsub w (by simp [hw]))
        refine ⟨st', store'', ?_, hc, hinv'⟩
        unfold run_get_htmls
        simp only [hcall, hrun]
        have hexp : expectedPayloadStr e store0 uc u = en.2 := by
          unfold expectedPayloadStr
          cases hg0 : dictGet? store0 u with
          | none =>
            simp only [hg0]
            rw [hpay]
            rfl
          | some en0 =>
            simp only [hg0]
            rw [if_neg (fun hcon => hVS ⟨hcon.2, en0, hg0, hcon.1⟩), hpay]
            rfl
        rw [List.map_cons, hexp]

/-- The population loop, when every treatment succeeds and requests are not
redirected: it never raises, writes the treatment entry for every work url
whose status is 200, skips the others, and touches nothing else. -/
theorem processFutures_ok (e : Env)
    (htreat : ∀ u r, ∃ x, classifyTreatment e u r ((e.origin u).2) = Except.ok x)
    (hred : ∀ u, e.finalUrl u = u) :
    ∀ (work : List String) (st : CState) (store : Store), st.cache = some store →
      ∃ store3 rng3, processFutures e st work =
          (Except.ok (), { st with cache := some store3, rng := rng3 }) ∧
        (∀ u, (u ∉ work ∨ (e.origin u).1 ≠ 200) → dictGet? store3 u = dictGet? store u) ∧
        (∀ u, u ∈ work → (e.origin u).1 = 200 →
          ∃ en, dictGet? store3 u = some en ∧ some en.2 = treatPayload e u ((e.origin u).2)) := by
  intro work
  induction work with
  | nil =>
    intro st store h
    refine ⟨store, st.rng, ?_, fun u _ => rfl, fun u hu => absurd hu (by simp)⟩
    have hst : ({ st with cache := some store, rng := st.rng } : CState) = st := by
      rw [← h]
    rw [hst]
    rfl
  | cons w rest ih =>
    intro st store h
    by_cases hs200 : (e.origin w).1 = 200
    · obtain ⟨x, hx⟩ := htreat w st.rng
      obtain ⟨en, rng2⟩ := x
      obtain ⟨store3, rng3, heq, hunch, hwr⟩ :=
        ih { st with cache := some (dictSet store w en), rng := rng2 }
          (dictSet store w en) rfl
      refine ⟨store3, rng3, ?_, ?_, ?_⟩
      · unfold processFutures
        rw [if_neg (by rw [hs200]; exact fun hcon => hcon rfl)]
        rw [hred w]
        simp only [hx]
        rw [getD_of_eq_some st store h]
        exact heq
      · intro u hu
        have hne : u ≠ w := by
          rcases hu with hu | hu
          · intro hcon; subst hcon; exact hu (by simp)
          · intro hcon; subst hcon; exact hu hs200
        have h2 : dictGet? store3 u = dictGet? (dictSet store w en) u := by
          apply hunch
          rcases hu with hu | hu
          · exact Or.inl (fun hcon => hu (by simp [hcon]))
          · exact Or.inr hu
        rw [h2, dictGet?_set_ne store w u en hne]
      · intro u hu hu200
        by_cases hur : u ∈ rest
        · exact hwr u hur hu200
        · have huw : u = w := by
            rcases List.mem_cons.mp hu with h' | h'
            · exact h'
            · exact absurd h' hur
          subst huw
          have h2 : dictGet? store3 u = dictGet? (dictSet store u en) u :=
            hunch u (Or.inl hur)
          rw [h2, dictGet?_set_self]
          exact ⟨en, rfl,
            (treatPayload_of_ok e u ((e.origin u).2) st.rng en rng2 hx).symm⟩
    · obtain ⟨store3, rng3, heq, hunch, hwr⟩ := ih st store h
      refine ⟨store3, rng3, ?_, ?_, ?_⟩
      · unfold processFutures
        rw [if_pos hs200]
        exact heq
      · intro u hu
        apply hunch
        rcases hu with hu | hu
        · exact Or.inl (fun hcon => hu (by simp [hcon]))
        · exact Or.inr hu
      · intro u hu hu200
        have hne : u ≠ w := fun hcon => hs200 (hcon ▸ hu200)
        have hur : u ∈ rest := by
          rcases List.mem_cons.mp hu with h' | h'
          · exact absurd h' hne
          · exact h'
        exact hwr u hur hu200

/-- Sweep + population phases of `get_html_async` on a loaded state: the
sweep yields `store2`, the population succeeds and yields `store3`, which
satisfies the per-key invariant for every key whose origin answers 200,
while keys with other statuses that had no valid entry end up absent. -/
theorem bulk_prepare (e : Env) (st : CState) (urls : List String) (uc : Bool)
    (store1 : Store) (h1 : st.cache = some store1)
    (hred : ∀ u, e.finalUrl u = u)
    (htreat : ∀ u r, ∃ x, classifyTreatment e u r ((e.origin u).2) = Except.ok x) :
    ∃ store2 store3 rng3,
      remove_invalid_entries e st (some urls) = { st with cache := some store2 } ∧
      populate e { st with cache := some store2 }
          (urls.filter (fun u => ! dictMem store2 u || ! uc)) =
        (Except.ok (),
          { st with
              cache := some store3,
              rng := rng3,
              trace := st.trace ++ urls.filter (fun u => ! dictMem store2 u || ! uc) }) ∧
      (∀ u, u ∈ urls → (e.origin u).1 = 200 → InvAt e store1 uc u store3) ∧
      (∀ u, u ∈ urls → (e.origin u).1 ≠ 200 →
        (∀ en, dictGet? store1 u = some en → en.1 ≤ e.now) →
        dictGet? store3 u = none) := by
  obtain ⟨store2, heq2, hchar⟩ := remove_invalid_entries_spec e st store1 urls h1
  obtain ⟨store3, rng3, hpf, hunch, hwr⟩ :=
    processFutures_ok e htreat hred (urls.filter (fun u => ! dictMem store2 u || ! uc))
      { st with
          cache := some store2,
          trace := st.trace ++ urls.filter (fun u => ! dictMem store2 u || ! uc) }
      store2 rfl
  refine ⟨store2, store3, rng3, heq2, hpf, ?_, ?_⟩
  · intro u hu hu200
    constructor
    · -- a usable pre-call entry survives the sweep and is not in the work set
      rintro ⟨huc, en, hen1, hlt⟩
      have h2 : dictGet? store2 u = some en := by
        rw [hchar u, if_neg, hen1]
        rintro ⟨-, en', hen', hle'⟩
        rw [hen1] at hen'
        cases hen'
        exact absurd hlt (not_lt.mpr hle')
      have hnw : u ∉ urls.filter (fun u => ! dictMem store2 u || ! uc) := by
        intro hcon
        have := (List.mem_filter.mp hcon).2
        rw [huc] at this
        simp [dictMem, h2] at this
      rw [hunch u (Or.inl hnw), h2, hen1]
    · -- otherwise any surviving binding was written by the population phase
      intro hVS en3 hen3
      by_cases hw : u ∈ urls.filter (fun u => ! dictMem store2 u || ! uc)
      · obtain ⟨en0, hget0, hpay0⟩ := hwr u hw hu200
        rw [hget0] at hen3
        injection hen3 with hen3
        rw [← hen3]
        exact hpay0
      · exfalso
        have hmemuc : dictMem store2 u = true ∧ uc = true := by
          by_contra hcon
          apply hw
          refine List.mem_filter.mpr ⟨hu, ?_⟩
          rcases Decidable.em (dictMem store2 u = true) with hm | hm
          · have huc : uc = false := by
              cases huc2 : uc
              · rfl
              · exact absurd ⟨hm, huc2⟩ hcon
            rw [huc]
            simp
          · have hm' : dictMem store2 u = false := by
              cases hm2 : dictMem store2 u
              · rfl
              · exact absurd hm2 hm
            rw [hm']
            simp
        rcases hmemuc with ⟨hmem, huc⟩
        rcases (dictMem_iff store2 u).mp hmem with ⟨en2, hen2⟩
        rw [hchar u] at hen2
        by_cases hsplit : u ∈ urls ∧ ∃ en', dictGet? store1 u = some en' ∧ en'.1 ≤ e.now
        · rw [if_pos hsplit] at hen2
          cases hen2
        · rw [if_neg hsplit] at hen2
          -- the entry survived the sweep, so it was valid: contradicts ¬ValidStart
          by_cases hlt : e.now < en2.1
          · exact hVS ⟨huc, en2, hen2, hlt⟩
          · exact hsplit ⟨hu, en2, hen2, not_lt.mp hlt⟩
  · intro u hu hu200 hnoval
    have h2 : dictGet? store2 u = none := by
      cases hget1 : dictGet? store1 u with
      | none => rw [hchar u, hget1]; split <;> rfl
      | some en =>
        rw [hchar u, if_pos ⟨hu, en, hget1, hnoval en hget1⟩]
    rw [hunch u (Or.inr hu200), h2]

/-- What an individual `get_html(u, use_cache = uc)` call returns on a
loaded state, for a 200-status key with a succeeding treatment. -/
theorem get_html_standalone (e : Env) (st : CState) (store : Store) (u : String)
    (uc : Bool) (h : st.cache = some store)
    (h200 : (e.origin u).1 = 200)
    (htreat : ∀ r, ∃ x, classifyTreatment e u r ((e.origin u).2) = Except.ok x) :
    (get_html e st u [] uc).1 = Except.ok (expectedPayloadStr e store uc u) := by
  have hst400 : (e.origin (withQuery u [])).1 < 400 := by
    rw [withQuery_nil, h200]
    norm_num
  cases hget : dictGet? store u with
  | none =>
    obtain ⟨x, hx⟩ := htreat st.rng
    rw [get_html_miss_ok e st store u [] uc x.1 x.2 h
      (by rw [withQuery_nil]; exact hit_false_of_none e store u uc hget) hst400
      (by rw [withQuery_nil]; exact hx)]
    unfold expectedPayloadStr
    simp only [hget]
    rw [treatPayload_of_ok e u ((e.origin u).2) st.rng x.1 x.2 (by rw [hx])]
    rfl
  | some en =>
    by_cases hcond : e.now < en.1 ∧ uc = true
    · rw [get_html_hit e st store u [] uc en h
        (by rw [withQuery_nil]; exact hget) (by simp [hcond.1, hcond.2])]
      unfold expectedPayloadStr
      simp only [hget]
      rw [if_pos hcond]
    · have hmiss : (cache_entry_is_valid e store (withQuery u []) && uc) = false := by
        rw [withQuery_nil]
        unfold cache_entry_is_valid
        rw [hget]
        by_cases hlt : e.now < en.1
        · have huc : uc = false := by
            cases huc2 : uc
            · rfl
            · exact absurd ⟨hlt, huc2⟩ hcond
          rw [huc]
          simp
        · simp [hlt]
      obtain ⟨x, hx⟩ := htreat st.rng
      rw [get_html_miss_ok e st store u [] uc x.1 x.2 h hmiss hst400
        (by rw [withQuery_nil]; exact hx)]
      unfold expectedPayloadStr
      simp only [hget]
      rw [if_neg hcond,
        treatPayload_of_ok e u ((e.origin u).2) st.rng x.1 x.2 (by rw [hx])]
      rfl

/-- Every classified treatment succeeds on a body in which no academic year
can be parsed (the only failure point is the curricular-unit trim, reached
only after a successful year parse). -/
theorem classify_ok_of_no_year (e : Env) (u b : String) (r : ℕ)
    (hb : parse_academic_year b = none) :
    ∃ x, classifyTreatment e u r b = Except.ok x := by
  rcases classify_cases e u with hc | hc | hc | hc <;> rw [hc]
  · unfold curricular_unit_treatment
    simp only [hb]
    exact ⟨_, rfl⟩
  · exact ⟨_, rfl⟩
  · exact ⟨_, rfl⟩
  · exact ⟨_, rfl⟩

theorem getD_map_str (f : String → String) (l : List String) (i : ℕ)
    (hi : i < l.length) :
    (l.map f).getD i "" = f (l.getD i "") := by
  induction l generalizing i with
  | nil => cases hi
  | cons a l ih =>
    cases i with
    | zero => rfl
    | succ j =>
      simp only [List.map_cons, List.getD_cons_succ]
      exact ih j (by simpa using hi)

/-! ## Claim C1 — bulk fetch refines the single fetch path -/

/-- C1 (amended): when every origin fetch answers status 200, is not
redirected (`request.url` equals the requested url), and every treatment of
a fetched body succeeds, `get_html_async(urls)` yields exactly
`urls.length` payloads, in input order, the i-th being precisely what a
standalone `get_html` call on the i-th key from the same starting state
would return.  (As stated the claim is false: see the counterexample, where
every origin fetch succeeds yet the batch aborts.) -/
theorem claim_C1 (e : Env) (st : CState) (urls : List String) (n_workers : ℕ) (uc : Bool)
    (h200 : ∀ u, (e.origin u).1 = 200)
    (hred : ∀ u, e.finalUrl u = u)
    (htreat : ∀ u r, ∃ x, classifyTreatment e u r ((e.origin u).2) = Except.ok x) :
    ∃ hs st', get_html_async e st urls n_workers uc = (Except.ok hs, st') ∧
      hs.length = urls.length ∧
      (∀ i, i < urls.length →
        (get_html e st (urls.getD i "") [] uc).1 = Except.ok (hs.getD i "")) := by
  have h1 : (ensureLoaded e st).cache = some ((ensureLoaded e st).cache.getD []) :=
    cache_eq_some_getD e st
  set st1 := ensureLoaded e st with hst1
  set store1 := st1.cache.getD [] with hstore1
  obtain ⟨store2, store3, rng3, heq2, hpop, hinv, -⟩ :=
    bulk_prepare e st1 urls uc store1 h1 hred htreat
  obtain ⟨st', store'', hrun, hc, -⟩ :=
    run_ok e store1 uc urls h200 htreat urls
      { st1 with
          cache := some store3,
          rng := rng3,
          trace := st1.trace ++ urls.filter (fun u => ! dictMem store2 u || ! uc) }
      store3 rfl (fun u hu => hinv u hu (h200 u)) (fun u hu => hu)
  refine ⟨urls.map (expectedPayloadStr e store1 uc), st', ?_, by simp, ?_⟩
  · have hasync : get_html_async e st urls n_workers uc =
        get_html_async e st1 urls n_workers uc := by
      unfold get_html_async
      rw [hst1, ensureLoaded_idem]
    rw [hasync, get_html_async_unfold e st1 urls n_workers uc store1 h1, heq2]
    have hgetD : (({ st1 with cache := some store2 } : CState).cache.getD []) = store2 := rfl
    rw [hgetD]
    have hpop' : populate e ({ st1 with cache := some store2 } : CState)
        (urls.filter (fun u => ! dictMem store2 u || ! uc)) =
        (Except.ok (),
          { st1 with
              cache := some store3,
              rng := rng3,
              trace := st1.trace ++ urls.filter (fun u => ! dictMem store2 u || ! uc) }) :=
      hpop
    rw [hpop']
    exact hrun
  · intro i hi
    rw [get_html_eq_ensure, ← hst1,
      get_html_standalone e st1 store1 (urls.getD i "") uc h1 (h200 _) (htreat _),
      getD_map_str (expectedPayloadStr e store1 uc) urls i hi]

theorem claim_C1_witness :
    ∃ hs st', get_html_async wEnv wState ["a", "c"] 10 true = (Except.ok hs, st') ∧
      hs.length = 2 ∧
      (get_html wEnv wState "a" [] true).1 = Except.ok (hs.getD 0 "") ∧
      (get_html wEnv wState "c" [] true).1 = Except.ok (hs.getD 1 "") := by
  obtain ⟨hs, st', hasync, hlen, hpt⟩ :=
    claim_C1 wEnv wState ["a", "c"] 10 true (fun u => rfl) (fun u => rfl)
      (fun u r => classify_ok_of_no_year wEnv u ((wEnv.origin u).2) r rfl)
  exact ⟨hs, st', hasync, hlen, hpt 0 (by norm_num), hpt 1 (by norm_num)⟩

theorem classify_eq_teacher (e : Env) (url : String)
    (h1 : is_curricular_unit url = false) (h2 : is_teacher url = true) :
    classifyTreatment e url = teacher_treatment e := by
  simp [classifyTreatment, custom_treatments, List.find?, h1, h2]

/-- A batch whose only key has status 200 but a raising treatment: the
bulk path propagates the exception instead of returning a sequence. -/
theorem async_single_abort (e : Env) (st : CState) (store : Store) (w : String)
    (err : PyErr) (n : ℕ) (uc : Bool)
    (h : st.cache = some store)
    (hnv : ∀ en, dictGet? store w = some en → en.1 ≤ e.now)
    (hs200 : (e.origin w).1 = 200)
    (hcl : classifyTreatment e (e.finalUrl w) 0 ((e.origin w).2) = Except.error err) :
    ∃ st', get_html_async e st [w] n uc = (Except.error err, st') := by
  rw [get_html_async_unfold e st [w] n uc store h]
  obtain ⟨store2, heq2, hchar⟩ := remove_invalid_entries_spec e st store [w] h
  rw [heq2]
  have hget2 : dictGet? store2 w = none := by
    cases hg : dictGet? store w with
    | none =>
      rw [hchar w, hg]
      split <;> rfl
    | some en => rw [hchar w, if_pos ⟨by simp, en, hg, hnv en hg⟩]
  have hwork : List.filter (fun u =>
      ! dictMem (({ st with cache := some store2 } : CState).cache.getD []) u || ! uc) [w]
      = [w] := by
    simp [dictMem, hget2]
  rw [hwork]
  have hpop : populate e ({ st with cache := some store2 } : CState) [w] =
      (Except.error err,
        { st with
            cache := some store2,
            trace := st.trace ++ [w] }) := by
    unfold populate processFutures
    rw [if_neg (by rw [hs200]; exact fun hcon => hcon rfl)]
    dsimp only
    rw [classify_err_all e (e.finalUrl w) ((e.origin w).2) 0 err hcl st.rng]
  rw [hpop]
  exact ⟨_, rfl⟩

/-- A curricular-unit page whose body parses an academic year but whose
document lacks the `envolvente` div: the treatment raises. -/
def wEnvCu : Env := { wEnv with origin := fun _ => (200, "2018/2019") }

/-- A url matching the curricular-unit predicate. -/
def wCuUrl : String := "ucurr_geral.ficha_uc_view"

/-- A loaded module state over an empty store. -/
def wStateEmpty : CState := { cache := some [], rng := 0, atexitCloses := 1, trace := [] }

theorem wCu_classify_err (r : ℕ) :
    classifyTreatment wEnvCu wCuUrl r "2018/2019" = Except.error PyErr.attributeError := by
  rw [classify_eq_cu wEnvCu wCuUrl (by decide)]
  unfold curricular_unit_treatment
  simp only [show parse_academic_year "2018/2019" = some 2018 from rfl]
  rw [ite_self]
  have htrim : trim_curricular_unit wEnvCu "2018/2019" = Except.error PyErr.attributeError := by
    unfold trim_curricular_unit
    simp [wEnvCu, wEnv, findDivList]
  rw [htrim]
  rfl

theorem claim_C1_cex :
    (wEnvCu.origin wCuUrl).1 = 200 ∧
    (get_html_async wEnvCu wStateEmpty [wCuUrl] 10 true).1 =
      Except.error PyErr.attributeError := by
  obtain ⟨st', hst'⟩ :=
    async_single_abort wEnvCu wStateEmpty [] wCuUrl PyErr.attributeError 10 true rfl
      (fun en hen => by rw [show dictGet? [] wCuUrl = none from rfl] at hen; cases hen)
      rfl (wCu_classify_err 0)
  exact ⟨rfl, by rw [hst']⟩

/-- The read-back phase reaching a key whose origin answers an HTTP-error
status and which is absent from the store: the preceding keys succeed and
then that key's `get_html` raises `HTTPError`, aborting the read. -/
theorem run_fail (e : Env) (store0 : Store) (uc : Bool) (S : List String) (k : String)
    (post : List String)
    (h200 : ∀ u, u ∈ S → (e.origin u).1 = 200)
    (htreat : ∀ u r, ∃ x, classifyTreatment e u r ((e.origin u).2) = Except.ok x)
    (hk400 : 400 ≤ (e.origin k).1)
    (hkS : k ∉ S) :
    ∀ (pre : List String) (st : CState) (store : Store), st.cache = some store →
      (∀ u, u ∈ S → InvAt e store0 uc u store) →
      (∀ u, u ∈ pre → u ∈ S) →
      dictGet? store k = none →
      ∃ st', run_get_htmls e st (pre ++ k :: post) =
        (Except.error (PyErr.httpError (e.origin k).1), st') := by
  intro pre
  induction pre with
  | nil =>
    intro st store h hinv hsub hkn
    have hfail := get_html_miss_fail e st store k [] true h
      (by rw [withQuery_nil]; exact hit_false_of_none e store k true hkn)
      (by rw [withQuery_nil]; exact hk400)
    refine ⟨{ st with trace := st.trace ++ [k] }, ?_⟩
    rw [List.nil_append]
    unfold run_get_htmls
    simp only [hfail]
    rfl
  | cons u pre ih =>
    intro st store h hinv hsub hkn
    have hu200 := h200 u (hsub u (by simp))
    by_cases hVS : ValidStart e store0 uc u
    · obtain ⟨huc, en, hen0, hlt⟩ := hVS
      have hgetu : dictGet? store u = some en := by
        rw [(hinv u (hsub u (by simp))).1 ⟨huc, en, hen0, hlt⟩, hen0]
      have hhit := get_html_hit e st store u [] true en h
        (by rw [withQuery_nil]; exact hgetu) (by simp [hlt])
      obtain ⟨st', hst'⟩ := ih st store h hinv (fun w hw => hsub w (by simp [hw])) hkn
      refine ⟨st', ?_⟩
      rw [List.cons_append]
      unfold run_get_htmls
      simp only [hhit, hst']
    · have hfetch := get_html_run e st store u h hu200 (htreat u)
      rcases hfetch with ⟨en, hgetu, hlt, hcall⟩ | ⟨en, rng2, hcl, hcall⟩
      · obtain ⟨st', hst'⟩ := ih st store h hinv (fun w hw => hsub w (by simp [hw])) hkn
        refine ⟨st', ?_⟩
        rw [List.cons_append]
        unfold run_get_htmls
        simp only [hcall, hst']
      · have hku : k ≠ u := fun hcon => hkS (hcon ▸ hsub u (by simp))
        have hpay : treatPayload e u ((e.origin u).2) = some en.2 :=
          treatPayload_of_ok e u ((e.origin u).2) st.rng en rng2 hcl
        obtain ⟨st', hst'⟩ :=
          ih { st with
                cache := some (dictSet store u en),
                rng := rng2,
                trace := st.trace ++ [u] }
            (dictSet store u en) rfl
            (fun w hw => invAt_set e store0 uc w u store en (hinv w hw) hVS hpay)
            (fun w hw => hsub w (by simp [hw]))
            (by rw [dictGet?_set_ne store u k en hku]; exact hkn)
        refine ⟨st', ?_⟩
        rw [List.cons_append]
        unfold run_get_htmls
        simp only [hcall, hst']

/-! ## Claim C2 — partial failure isolation in the bulk path -/

/-- C2 (amended): a key whose origin fetch completes with status ≠ 200
during the population phase is skipped with no error for the batch
(`continue`); if the key's status is an HTTP error (≥ 400) and it has no
valid cache entry, the final read phase re-fetches it and the `HTTPError`
for that specific key propagates out of the materialised read (preceding
keys having been served first).  (As stated the claim is false: a status
such as 204 is dropped by the population phase yet is *not* an error for
the final read, which caches and returns that response's body — see the
counterexample.) -/
theorem claim_C2 (e : Env) (st : CState) (pre post : List String) (k : String)
    (n_workers : ℕ) (uc : Bool)
    (hred : ∀ u, e.finalUrl u = u)
    (htreat : ∀ u r, ∃ x, classifyTreatment e u r ((e.origin u).2) = Except.ok x)
    (hpre : ∀ u, u ∈ pre → (e.origin u).1 = 200)
    (hk : 400 ≤ (e.origin k).1)
    (hkpre : k ∉ pre) :
    (∀ (st2 : CState) (rest : List String),
      processFutures e st2 (k :: rest) = processFutures e st2 rest) ∧
    (∀ store1, st.cache = some store1 →
      (∀ en, dictGet? store1 k = some en → en.1 ≤ e.now) →
      ∃ st', get_html_async e st (pre ++ k :: post) n_workers uc =
        (Except.error (PyErr.httpError (e.origin k).1), st')) := by
  have hk200 : (e.origin k).1 ≠ 200 := by omega
  constructor
  · intro st2 rest
    conv_lhs => unfold processFutures
    rw [if_pos hk200]
  · intro store1 h1 hnoval
    obtain ⟨store2, store3, rng3, heq2, hpop, hinv, habsent⟩ :=
      bulk_prepare e st (pre ++ k :: post) uc store1 h1 hred htreat
    have hk3 : dictGet? store3 k = none :=
      habsent k (by simp) hk200 hnoval
    obtain ⟨st', hrunfail⟩ :=
      run_fail e store1 uc pre k post hpre htreat hk hkpre pre
        { st with
            cache := some store3,
            rng := rng3,
            trace := st.trace ++
              (pre ++ k :: post).filter (fun u => ! dictMem store2 u || ! uc) }
        store3 rfl
        (fun u hu => hinv u (by simp [hu]) (hpre u hu))
        (fun u hu => hu) hk3
    refine ⟨st', ?_⟩
    rw [get_html_async_unfold e st (pre ++ k :: post) n_workers uc store1 h1, heq2]
    have hgetD : (({ st with cache := some store2 } : CState).cache.getD []) = store2 := rfl
    rw [hgetD, hpop]
    exact hrunfail

/-- `"k"` answers 404; everything else answers 200. -/
def wEnv404k : Env :=
  { wEnv with origin := fun u => if u = "k" then (404, "E") else (200, "B") }

theorem claim_C2_witness :
    processFutures wEnv404k wState ["k"] = processFutures wEnv404k wState [] ∧
    ∃ st', get_html_async wEnv404k wState (["a"] ++ "k" :: []) 10 true =
      (Except.error (PyErr.httpError (wEnv404k.origin "k").1), st') := by
  obtain ⟨ha, hb⟩ :=
    claim_C2 wEnv404k wState ["a"] [] "k" 10 true (fun u => rfl)
      (fun u r => classify_ok_of_no_year wEnv404k u ((wEnv404k.origin u).2) r
        (by by_cases hu : u = "k" <;> simp [wEnv404k, wEnv, hu] <;> rfl))
      (fun u hu => by
        have : u = "a" := by simpa using hu
        rw [this]
        rfl)
      (by norm_num [wEnv404k, wEnv])
      (by simp)
  exact ⟨ha wState [], hb wStore rfl
    (fun en hen => by rw [show dictGet? wStore "k" = none from rfl] at hen; cases hen)⟩

/-- A 204-answering environment: non-success for the population phase,
success for `raise_for_status`. -/
def wEnv204 : Env := { wEnv with origin := fun _ => (204, "B") }

theorem claim_C2_cex :
    (wEnv204.origin "x").1 ≠ 200 ∧
    (get_html_async wEnv204 wStateEmpty ["x"] 10 true).1 = Except.ok ["B"] ∧
    dictGet? ((get_html_async wEnv204 wStateEmpty ["x"] 10 true).2.cache.getD []) "x"
      = some (10, "B") := by
  refine ⟨by norm_num [wEnv204, wEnv], ?_, ?_⟩ <;>
    simp [get_html_async, ensureLoaded, remove_invalid_entries, populate, processFutures,
      run_get_htmls, get_html, withQuery, dictMem, dictGet?, dictSet, cache_entry_is_valid,
      classifyTreatment, custom_treatments, List.find?, is_curricular_unit, is_teacher,
      is_student, strContains, strContains.containsAux, List.isPrefixOf, default_treatment,
      random_radioactive_lifetime, lambd, ln2code, twoDays, min_def, wEnv204, wEnv, wStateEmpty]

/-! ## Claim C3 — what actually happens when reduction finds no substructure -/

/-- C3 (amended): when the expected substructure is missing from a fetched
body, no dedicated `ClassificationError` exists in this code.  The teacher
trim does not fail at all: it renders the failed search as the string
`"None"`, which `get_html` happily caches and returns.  Only the
curricular-unit trim raises (a plain `AttributeError`, from calling a
method on `None`): in `get_html` that exception propagates with no cache
entry written for the key, and in the bulk path an exception during the
population loop aborts the whole batch instead of dropping the key. -/
theorem claim_C3 (e : Env) (st : CState) (store : Store) (url : String) (y : ℕ)
    (h : st.cache = some store) :
    (findDivList "conteudo" (e.parseHtml (e.trimHtml ((e.origin url).2))) = none →
      trim_teacher e ((e.origin url).2) = "None") ∧
    (is_curricular_unit url = false → is_teacher url = true →
      (cache_entry_is_valid e store url && true) = false →
      (e.origin url).1 < 400 →
      findDivList "conteudo" (e.parseHtml (e.trimHtml ((e.origin url).2))) = none →
      get_html e st url [] true =
        (Except.ok "None",
          { st with
              cache := some (dictSet store url
                (e.now + random_radioactive_lifetime twoMonths (e.draws st.rng) true,
                  "None")),
              rng := st.rng + 1,
              trace := st.trace ++ [url] })) ∧
    (is_curricular_unit url = true →
      (cache_entry_is_valid e store url && true) = false →
      (e.origin url).1 < 400 →
      parse_academic_year ((e.origin url).2) = some y →
      findDivList "envolvente" (e.parseHtml (e.trimHtml ((e.origin url).2))) = none →
      get_html e st url [] true =
        (Except.error PyErr.attributeError, { st with trace := st.trace ++ [url] })) ∧
    (∀ (st2 : CState) (rest : List String) (err : PyErr), (e.origin url).1 = 200 →
      classifyTreatment e (e.finalUrl url) st2.rng ((e.origin url).2) = Except.error err →
      processFutures e st2 (url :: rest) = (Except.error err, st2)) := by
  refine ⟨?_, ?_, ?_, ?_⟩
  · intro hfind
    unfold trim_teacher
    rw [hfind]
    rfl
  · intro hcu hteach hmiss hst hfind
    have hcl : classifyTreatment e url st.rng ((e.origin url).2) =
        Except.ok ((e.now + random_radioactive_lifetime twoMonths (e.draws st.rng) true,
          "None"), st.rng + 1) := by
      rw [classify_eq_teacher e url hcu hteach]
      unfold teacher_treatment trim_teacher
      rw [hfind]
      rfl
    have := get_html_miss_ok e st store url [] true
      (e.now + random_radioactive_lifetime twoMonths (e.draws st.rng) true, "None")
      (st.rng + 1) h (by rw [withQuery_nil]; exact hmiss) (by rw [withQuery_nil]; exact hst)
      (by rw [withQuery_nil]; exact hcl)
    rw [this]
    rfl
  · intro hcu hmiss hst hyear hfind
    have htrim : trim_curricular_unit e ((e.origin url).2) =
        Except.error PyErr.attributeError := by
      unfold trim_curricular_unit
      simp only [hfind]
    have hcl : classifyTreatment e url st.rng ((e.origin url).2) =
        Except.error PyErr.attributeError := by
      rw [classify_eq_cu e url hcu]
      unfold curricular_unit_treatment
      simp only [hyear, ite_self, htrim]
      rfl
    have := get_html_miss_err e st store url [] true PyErr.attributeError h
      (by rw [withQuery_nil]; exact hmiss) (by rw [withQuery_nil]; exact hst)
      (by rw [withQuery_nil]; exact hcl)
    rw [this]
    rfl
  · intro st2 rest err h200 hcl
    conv_lhs => unfold processFutures
    rw [if_neg (by rw [h200]; exact fun hcon => hcon rfl)]
    dsimp only
    rw [hcl]

theorem claim_C3_witness :
    trim_teacher wEnv "B" = "None" ∧
    get_html wEnv wState "func_geral.formview" [] true =
      (Except.ok "None",
        { wState with
            cache := some (dictSet wStore "func_geral.formview"
              (wEnv.now + random_radioactive_lifetime twoMonths (wEnv.draws wState.rng) true,
                "None")),
            rng := wState.rng + 1,
            trace := wState.trace ++ ["func_geral.formview"] }) ∧
    processFutures wEnvCu wState [wCuUrl, "z"] = (Except.error PyErr.attributeError, wState) := by
  obtain ⟨h1, h2, h3, h4⟩ :=
    claim_C3 wEnv wState wStore "func_geral.formview" 0 rfl
  have hfind : findDivList "conteudo"
      (wEnv.parseHtml (wEnv.trimHtml ((wEnv.origin "func_geral.formview").2))) = none := by
    simp [wEnv, findDivList]
  refine ⟨h1 hfind, h2 (by decide) (by decide) (by rfl) (by norm_num [wEnv]) hfind, ?_⟩
  exact (claim_C3 wEnvCu wState wStore wCuUrl 0 rfl).2.2.2 wState ["z"]
    PyErr.attributeError rfl (wCu_classify_err wState.rng)

theorem claim_C3_cex :
    (get_html wEnv wStateEmpty "func_geral.formview" [] true).1 = Except.ok "None" ∧
    dictGet? ((get_html wEnv wStateEmpty "func_geral.formview" [] true).2.cache.getD [])
      "func_geral.formview" = some (10, "None") := by
  have hcl : classifyTreatment wEnv "func_geral.formview" 0 "B" =
      Except.ok ((10, "None"), 1) := by
    rw [classify_eq_teacher wEnv "func_geral.formview" (by decide) (by decide)]
    unfold teacher_treatment trim_teacher
    have hfind : findDivList "conteudo" (wEnv.parseHtml (wEnv.trimHtml "B")) = none := by
      simp [wEnv, findDivList]
    rw [hfind]
    have ht : wEnv.now + random_radioactive_lifetime twoMonths (wEnv.draws 0) true = 10 := by
      norm_num [wEnv, random_radioactive_lifetime, lambd, ln2code, twoMonths, min_def]
    rw [show renderFound "conteudo" none = "None" from rfl, ht]
  have := get_html_miss_ok wEnv wStateEmpty [] "func_geral.formview" [] true
    (10, "None") 1 rfl (by rfl) (by norm_num [wEnv]) (by rw [withQuery_nil]; exact hcl)
  rw [this]
  exact ⟨rfl, rfl⟩

/-! ## Claim C7 — the jittered half-life schedule -/

/-- C7 (amended): the lifetime is an exponential sample with the *code's*
rate `0.693147 / half_life` (a 6-decimal truncation of ln 2, not ln 2
itself), cut off at `4 × half_life`; hence for any nonnegative sample the
lifetime — and so expiry − now — lies in `[0, 4 half_life]`, expiry is
exactly `now + lifetime` (as the default treatment shows), and for a fixed
PRNG sample the result is a fixed value of that formula.  The same bounds
hold for the real-valued model of `random.expovariate`. -/
theorem claim_C7 (half_life draw now : ℚ) (H u : ℝ)
    (hH : 0 < half_life) (hd : 0 ≤ draw) (hHR : 0 < H) (hu0 : 0 ≤ u) (hu1 : u < 1) :
    (0 ≤ random_radioactive_lifetime half_life draw true ∧
      random_radioactive_lifetime half_life draw true ≤ 4 * half_life) ∧
    ((now + random_radioactive_lifetime half_life draw true) - now =
      random_radioactive_lifetime half_life draw true) ∧
    (∀ (e : Env) (rng : ℕ) (html : String), default_treatment e rng html =
      Except.ok ((e.now + random_radioactive_lifetime twoDays (e.draws rng) true,
        e.trimHtml html), rng + 1)) ∧
    (0 ≤ radioactiveLifetimeR H u ∧ radioactiveLifetimeR H u ≤ 4 * H) := by
  have hlam : 0 < lambd half_life := by
    unfold lambd ln2code
    positivity
  have hq : 0 ≤ random_radioactive_lifetime half_life draw true ∧
      random_radioactive_lifetime half_life draw true ≤ 4 * half_life := by
    unfold random_radioactive_lifetime
    rw [if_pos rfl]
    constructor
    · exact le_min (div_nonneg hd hlam.le) (by linarith)
    · calc min (draw / lambd half_life) (half_life * 4) ≤ half_life * 4 := min_le_right _ _
        _ = 4 * half_life := by ring
  refine ⟨hq, by ring, fun e rng html => rfl, ?_, ?_⟩
  · unfold radioactiveLifetimeR expovariateR
    have hlog : Real.log (1 - u) ≤ 0 := Real.log_nonpos (by linarith) (by linarith)
    have hlamR : (0 : ℝ) < (693147 : ℝ) / 1000000 / H := by positivity
    exact le_min (div_nonneg (by linarith) hlamR.le) (by linarith)
  · unfold radioactiveLifetimeR
    calc min (expovariateR ((693147 : ℝ) / 1000000 / H) u) (H * 4) ≤ H * 4 :=
        min_le_right _ _
      _ = 4 * H := by ring

/-- The claim as stated is false: the code's rate constant is the literal
`0.693147`, which is not `ln 2` (`ln 2 = 0.6931471805…`), so the sampled
distribution's rate differs from `ln 2 / half_life`. -/
theorem claim_C7_cex : ((lambd 1 : ℚ) : ℝ) ≠ Real.log 2 / 1 := by
  have h1 : ((lambd 1 : ℚ) : ℝ) = 693147 / 1000000 := by
    norm_num [lambd, ln2code]
  rw [h1, div_one]
  intro hcon
  have h2 := Real.log_two_gt_d9
  rw [← hcon] at h2
  norm_num at h2

theorem claim_C7_witness :
    (0 ≤ random_radioactive_lifetime 2 1 true ∧
      random_radioactive_lifetime 2 1 true ≤ 4 * 2) ∧
    ((5 + random_radioactive_lifetime 2 1 true) - 5 =
      random_radioactive_lifetime 2 1 true) ∧
    (∀ (e : Env) (rng : ℕ) (html : String), default_treatment e rng html =
      Except.ok ((e.now + random_radioactive_lifetime twoDays (e.draws rng) true,
        e.trimHtml html), rng + 1)) ∧
    (0 ≤ radioactiveLifetimeR 2 0 ∧ radioactiveLifetimeR 2 0 ≤ 4 * 2) :=
  claim_C7 2 1 5 2 0 (by norm_num) (by norm_num) (by norm_num) (by norm_num) (by norm_num)

/-- A store whose single entry times out exactly at the current instant. -/
def wStoreB : Store := [("k", (10, "PK"))]

/-- A loaded state over `wStoreB`. -/
def wStateB : CState := { cache := some wStoreB, rng := 0, atexitCloses := 1, trace := [] }

theorem claim_C10_witness :
    cache_entry_is_valid wEnv wStoreB "k" = false ∧
    dictGet? ((remove_invalid_entries wEnv wStateB (some ["k"])).cache.getD []) "k" = none ∧
    (get_html wEnv wStateB "k" [] true).2.trace = wStateB.trace ++ ["k"] ∧
    "k" ∈ (get_html_async wEnv wStateB ["k"] 10 true).2.trace := by
  obtain ⟨hiff, hb, hsweep, hsingle, hbulk⟩ := claim_C10 wEnv wStateB wStoreB "k" "PK" 10
  exact ⟨hb rfl, hsweep rfl rfl, hsingle rfl rfl, hbulk rfl rfl⟩

end Feupy
